import Mathlib

/-!
# Verification of the asset-manager market-data core

Shallow embedding of the OHLCV candle store
(`src/storage/repositories/ohlcv-repository.ts`, backed by the SQLite schema
in `src/storage/schema/migrations.sql`) and of the time-series statistics
engine (`src/analytics/time-series-statistics-engine.ts`), together with
theorems settling the claims C1-C10 about them.

Modelling conventions:
* SQLite `DATETIME` columns hold ISO-8601 strings produced by
  `Date.toISOString()`; comparison of such strings agrees with millisecond
  order, so timestamps are embedded as integers (milliseconds since the
  epoch).
* OHLCV fields are stored as exact decimal strings; a stored string is
  embedded as the rational number it denotes.
* JavaScript `number` values handed to the statistics engine are embedded
  as rationals (the spec declares the statistics engine precision-tolerant,
  and no claim about the engine concerns binary rounding).  The two partial
  operations that can produce non-finite doubles from finite operands -
  division and `Math.sqrt` - are embedded on the `JsNum` type below, which
  represents `NaN` and the two infinities explicitly.
* Where the repository code parses stored decimal strings with `parseFloat`
  and aggregates them in binary floating point (the resampler, claim C4),
  the rounding to IEEE-754 binary64 is embedded exactly by `roundDouble`
  below.  A value computed this way is stored back through
  `Number.prototype.toString`, which prints the shortest decimal string
  that reparses to the same double; the model records the double's exact
  rational value for such a stored field.
* `randomUUID()` and `new Date()` are environment inputs; the embedded
  operations take the generated ids and the current time as arguments.
-/

/- The `Rat` arithmetic in Batteries is marked irreducible, which blocks
kernel evaluation in `decide`; restore the default reducibility so concrete
rational computations can be decided. -/
set_option allowUnsafeReducibility true in
attribute [semireducible] Rat.add Rat.sub Rat.mul Rat.inv

namespace AssetManager

/-! ## JavaScript numbers -/

/-- A JavaScript `number` as observed by the statistics engine: either a
finite value (embedded as the exact rational it denotes) or one of the
non-finite doubles. -/
inductive JsNum where
  | num (q : ℚ)
  | nan
  | posInf
  | negInf
deriving DecidableEq, Repr

/-- JS addition: `NaN` propagates, opposite infinities give `NaN`, an
infinity absorbs any finite value. -/
def jsAdd : JsNum → JsNum → JsNum
  | .num a, .num b => .num (a + b)
  | .nan, _ => .nan
  | _, .nan => .nan
  | .posInf, .negInf => .nan
  | .negInf, .posInf => .nan
  | .posInf, _ => .posInf
  | _, .posInf => .posInf
  | .negInf, _ => .negInf
  | _, .negInf => .negInf

/-- JS multiplication (`0 * ±Infinity` is `NaN`). -/
def jsMul : JsNum → JsNum → JsNum
  | .num a, .num b => .num (a * b)
  | .nan, _ => .nan
  | _, .nan => .nan
  | .posInf, .posInf => .posInf
  | .posInf, .negInf => .negInf
  | .negInf, .posInf => .negInf
  | .negInf, .negInf => .posInf
  | .posInf, .num b => if b = 0 then .nan else if 0 < b then .posInf else .negInf
  | .negInf, .num b => if b = 0 then .nan else if 0 < b then .negInf else .posInf
  | .num a, .posInf => if a = 0 then .nan else if 0 < a then .posInf else .negInf
  | .num a, .negInf => if a = 0 then .nan else if 0 < a then .negInf else .posInf

/-- JS division.  Division by (positive) zero yields `NaN` for a zero
numerator and a signed infinity otherwise; `NaN` propagates; a finite value
divided by an infinity is `0`.  The single rational `0` models JS `+0`,
the only zero arising in this development. -/
def jsDivNN : JsNum → JsNum → JsNum
  | .num a, .num b =>
      if b = 0 then (if a = 0 then .nan else if 0 < a then .posInf else .negInf)
      else .num (a / b)
  | .nan, _ => .nan
  | _, .nan => .nan
  | .num _, .posInf => .num 0
  | .num _, .negInf => .num 0
  | .posInf, .num b => if 0 ≤ b then .posInf else .negInf
  | .negInf, .num b => if 0 ≤ b then .negInf else .posInf
  | .posInf, _ => .nan
  | .negInf, _ => .nan

/-- The JS `<` comparison: any comparison against `NaN` is `false`. -/
def jsLt : JsNum → JsNum → Bool
  | .num a, .num b => a < b
  | .nan, _ => false
  | _, .nan => false
  | .negInf, .negInf => false
  | .negInf, _ => true
  | _, .negInf => false
  | .posInf, _ => false
  | .num _, .posInf => true

/-- The JS `=== 0` test (false for `NaN` and for the infinities). -/
def jsIsZero : JsNum → Bool
  | .num q => q = 0
  | _ => false

/-- `x` is a finite JS number. -/
def JsNum.isFinite : JsNum → Prop
  | .num _ => True
  | _ => False

instance : DecidablePred JsNum.isFinite := by
  intro x; cases x <;> simp [JsNum.isFinite] <;> infer_instance

/-- Abstraction of `Math.sqrt` on nonnegative arguments.  The engine only
branches on zeroness of square roots, and no claim under verification
mentions a square root's numeric value, so the function is kept abstract,
constrained by the two facts the proofs use: `sqrt 0 = 0` and `sqrt q > 0`
for `q > 0`. -/
structure SqrtFn where
  f : ℚ → ℚ
  f_zero : f 0 = 0
  f_pos : ∀ q : ℚ, 0 < q → 0 < f q

/-- A concrete `SqrtFn` used to instantiate witnesses. -/
def idSqrt : SqrtFn :=
  ⟨id, rfl, fun _ h => h⟩

/-- `Math.sqrt` lifted to the model: `NaN` on negative arguments. -/
def jsSqrt (S : SqrtFn) (q : ℚ) : JsNum :=
  if q < 0 then .nan else .num (S.f q)

/-! ## IEEE-754 binary64 rounding

`parseFloat` on a stored decimal string, and each arithmetic step of the
floating-point aggregation in `compressDataToTimeframe`, round their exact
rational result to the nearest binary64 double.  `roundDouble` embeds that
rounding exactly (round to nearest, ties to even).  Subnormal underflow and
infinite overflow are not modelled; no value in this development approaches
either end of the normal range. -/

/-- Descending powers of two for binary exponent search. -/
def expLadder : List ℕ := [128, 64, 32, 16, 8, 4, 2, 1]

/-- The largest `e ≤ 255` with `a * 2 ^ e < t` (when one exists; `0`
otherwise).  A binary climb, so kernel evaluation stays shallow. -/
def maxDoublingsBelow (a t : ℕ) : ℕ :=
  expLadder.foldl (fun acc s => if a * 2 ^ (acc + s) < t then acc + s else acc) 0

/-- The largest `e ≤ 255` with `t * 2 ^ e ≤ a` (when one exists; `0`
otherwise). -/
def maxDoublingsOver (t a : ℕ) : ℕ :=
  expLadder.foldl (fun acc s => if t * 2 ^ (acc + s) ≤ a then acc + s else acc) 0

/-- Round the fraction `a / b` (with `b ≠ 0`) to the nearest natural
number, ties to even. -/
def natRoundHalfEven (a b : ℕ) : ℕ :=
  let n := a / b
  let r := a % b
  if 2 * r < b then n
  else if b < 2 * r then n + 1
  else if n % 2 = 0 then n else n + 1

/-- The rational value of the binary64 double nearest to the positive
fraction `a / b`: scale by a power of two into the binade `[2^52, 2^53)`,
round to a 53-bit mantissa (ties to even), and undo the scaling.
`4503599627370496 = 2^52` and `9007199254740992 = 2^53`. -/
def roundDoublePos (a b : ℕ) : ℚ :=
  if 9007199254740992 * b ≤ a then
    let d := maxDoublingsOver (9007199254740992 * b) a + 1
    (natRoundHalfEven a (b * 2 ^ d) * 2 ^ d : ℕ)
  else if a < 4503599627370496 * b then
    let u := maxDoublingsBelow a (4503599627370496 * b) + 1
    mkRat (natRoundHalfEven (a * 2 ^ u) b) (2 ^ u)
  else
    (natRoundHalfEven a b : ℕ)

/-- The rational value of the IEEE-754 binary64 double nearest to `q`
(round to nearest, ties to even). -/
def roundDouble (q : ℚ) : ℚ :=
  if q.num = 0 then 0
  else if q.num < 0 then - roundDoublePos q.num.natAbs q.den
  else roundDoublePos q.num.natAbs q.den

/-! ## The candle store

`ohlcv-repository.ts` over the `ohlcv_data` table.  The table carries
`CREATE UNIQUE INDEX idx_ohlcv_unique ON ohlcv_data(asset_id, timeframe,
timestamp)`, so `INSERT OR IGNORE` ignores a row exactly when that triple
is already present. -/

/-- The `OHLCVTimeframe` enumeration (the `CHECK` constraint of the
schema and the key type of the repository's timeframe table). -/
inductive OHLCVTimeframe where
  | m1 | m5 | m15 | m30 | h1 | h4 | h6 | h12 | d1 | d3 | w1 | mo1
deriving DecidableEq, Repr

/-- The `timeframeMinutes` table of `compressDataToTimeframe`. -/
def timeframeMinutes : OHLCVTimeframe → ℤ
  | .m1 => 1
  | .m5 => 5
  | .m15 => 15
  | .m30 => 30
  | .h1 => 60
  | .h4 => 240
  | .h6 => 360
  | .h12 => 720
  | .d1 => 1440
  | .d3 => 4320
  | .w1 => 10080
  | .mo1 => 43200

/-- The string name of a timeframe (used in the resampler's provenance
tag `compressed_from_<timeframe>`). -/
def timeframeName : OHLCVTimeframe → String
  | .m1 => "1m"
  | .m5 => "5m"
  | .m15 => "15m"
  | .m30 => "30m"
  | .h1 => "1h"
  | .h4 => "4h"
  | .h6 => "6h"
  | .h12 => "12h"
  | .d1 => "1d"
  | .d3 => "3d"
  | .w1 => "1w"
  | .mo1 => "1M"

/-- `CreateOHLCVRequest`: the caller-supplied candle.  The field `open` is
a Lean keyword and is embedded as `opn`. -/
structure CreateOHLCVRequest where
  assetId : String
  timeframe : OHLCVTimeframe
  timestamp : ℤ
  opn : ℚ
  high : ℚ
  low : ℚ
  close : ℚ
  volume : ℚ
  source : Option String
deriving DecidableEq, Repr

/-- `OHLCVData`: a stored row of `ohlcv_data`. -/
structure OHLCVData where
  id : String
  assetId : String
  timeframe : OHLCVTimeframe
  timestamp : ℤ
  opn : ℚ
  high : ℚ
  low : ℚ
  close : ℚ
  volume : ℚ
  source : Option String
  createdAt : ℤ
deriving DecidableEq, Repr

/-- The composite unique key of a stored row. -/
def rowKey (r : OHLCVData) : String × OHLCVTimeframe × ℤ :=
  (r.assetId, r.timeframe, r.timestamp)

/-- The composite unique key of a request. -/
def requestKey (r : CreateOHLCVRequest) : String × OHLCVTimeframe × ℤ :=
  (r.assetId, r.timeframe, r.timestamp)

/-- The live `ohlcv_data` table, rows in insertion (rowid) order. -/
structure OHLCVStore where
  rows : List OHLCVData
deriving DecidableEq, Repr

/-- The row a `create` call builds before inserting (fresh `randomUUID`
and `new Date()` passed in as `newId` and `now`). -/
def mkRow (request : CreateOHLCVRequest) (newId : String) (now : ℤ) : OHLCVData :=
  { id := newId
    assetId := request.assetId
    timeframe := request.timeframe
    timestamp := request.timestamp
    opn := request.opn
    high := request.high
    low := request.low
    close := request.close
    volume := request.volume
    source := request.source
    createdAt := now }

/-- Whether the store already holds the unique key. -/
def keyPresent (s : OHLCVStore) (k : String × OHLCVTimeframe × ℤ) : Bool :=
  s.rows.any fun r => decide (rowKey r = k)

/-- `getByAssetTimeframeTimestamp`: the single row with the given key. -/
def getByAssetTimeframeTimestamp (s : OHLCVStore) (assetId : String)
    (timeframe : OHLCVTimeframe) (timestamp : ℤ) : Option OHLCVData :=
  s.rows.find? fun r => decide (rowKey r = (assetId, timeframe, timestamp))

/-- `OHLCVRepository.create`: `INSERT OR IGNORE`; when the insert is
ignored (`result.changes = 0`, i.e. the unique key is already present) the
existing record is fetched and returned; the source throws if that fetch
comes back empty, which the embedding keeps as the `error` branch. -/
def create (s : OHLCVStore) (request : CreateOHLCVRequest) (newId : String)
    (now : ℤ) : Except String (OHLCVData × OHLCVStore) :=
  let ohlcv := mkRow request newId now
  if keyPresent s (requestKey request) then
    match getByAssetTimeframeTimestamp s request.assetId request.timeframe request.timestamp with
    | some existing => .ok (existing, s)
    | none => .error "Failed to insert or retrieve OHLCV data"
  else
    .ok (ohlcv, ⟨s.rows ++ [ohlcv]⟩)

/-- The loop body of `bulkCreate`: one `INSERT OR IGNORE` per request
inside the surrounding transaction, counting the rows actually inserted;
`i` indexes the fresh UUIDs `gen`. -/
def bulkCreateAux (gen : ℕ → String) (now : ℤ) :
    List CreateOHLCVRequest → ℕ → OHLCVStore → ℕ → ℕ × OHLCVStore
  | [], _, s, inserted => (inserted, s)
  | request :: rest, i, s, inserted =>
      if keyPresent s (requestKey request) then
        bulkCreateAux gen now rest (i + 1) s inserted
      else
        bulkCreateAux gen now rest (i + 1)
          ⟨s.rows ++ [mkRow request (gen i) now]⟩ (inserted + 1)

/-- `OHLCVRepository.bulkCreate`: the whole batch as one transaction, each
row through `INSERT OR IGNORE`, returning the inserted count. -/
def bulkCreate (s : OHLCVStore) (requests : List CreateOHLCVRequest)
    (gen : ℕ → String) (now : ℤ) : ℕ × OHLCVStore :=
  bulkCreateAux gen now requests 0 s 0

/-- The filter fields `OHLCVRepository.count` reads (it ignores the
`assetIds` / `timeframes` / `source` fields of `OHLCVFilters`). -/
structure OHLCVFilters where
  assetId : Option String := none
  timeframe : Option OHLCVTimeframe := none
  timestampFrom : Option ℤ := none
  timestampTo : Option ℤ := none

/-- The `WHERE` clause of `count` applied to one row. -/
def matchesFilters (f : OHLCVFilters) (r : OHLCVData) : Bool :=
  (f.assetId.all fun a => decide (r.assetId = a)) &&
  (f.timeframe.all fun tf => decide (r.timeframe = tf)) &&
  (f.timestampFrom.all fun ts => decide (ts ≤ r.timestamp)) &&
  (f.timestampTo.all fun ts => decide (r.timestamp ≤ ts))

/-- `OHLCVRepository.count`. -/
def count (s : OHLCVStore) (f : OHLCVFilters) : ℕ :=
  (s.rows.filter (matchesFilters f)).length

/-- The number of stored rows with exactly the given unique key
(`count` with `assetId`, `timeframe` and `timestampFrom = timestampTo =
timestamp`). -/
def countKey (s : OHLCVStore) (k : String × OHLCVTimeframe × ℤ) : ℕ :=
  count s ⟨some k.1, some k.2.1, some k.2.2, some k.2.2⟩

/-- Timestamp order on rows (the SQL `ORDER BY timestamp ASC`). -/
def tsLE (a b : OHLCVData) : Prop := a.timestamp ≤ b.timestamp

instance : DecidableRel tsLE := fun a b => Int.decLe a.timestamp b.timestamp

instance : IsTotal OHLCVData tsLE := ⟨fun a b => Int.le_total a.timestamp b.timestamp⟩

instance : IsTrans OHLCVData tsLE := ⟨fun _ _ _ h h' => le_trans h h'⟩

/-- `ORDER BY timestamp ASC` on a list of rows. -/
def sortByTimestamp (rows : List OHLCVData) : List OHLCVData :=
  rows.insertionSort tsLE

/-- All rows of one asset/timeframe series, in store order. -/
def seriesRows (s : OHLCVStore) (assetId : String) (timeframe : OHLCVTimeframe) :
    List OHLCVData :=
  s.rows.filter fun r => decide (r.assetId = assetId ∧ r.timeframe = timeframe)

/-! ### Gap detection -/

/-- The pair loop of `findDataGaps` over the ascending timestamp list:
for each consecutive pair `(current, next)` with
`next > current + interval`, emit `(current + interval, next - interval)`
(interval in milliseconds: `expectedInterval * 60 * 1000`). -/
def gapsOfTimestamps (expectedInterval : ℤ) : List ℤ → List (ℤ × ℤ)
  | [] => []
  | [_] => []
  | current :: next :: rest =>
      (if current + expectedInterval * 60 * 1000 < next then
        [(current + expectedInterval * 60 * 1000, next - expectedInterval * 60 * 1000)]
      else []) ++ gapsOfTimestamps expectedInterval (next :: rest)

/-- `OHLCVRepository.findDataGaps`: load the key's timestamps ascending and
run the pair loop (the source also early-returns `[]` under two rows, which
the pair loop already does). -/
def findDataGaps (s : OHLCVStore) (assetId : String) (timeframe : OHLCVTimeframe)
    (expectedInterval : ℤ) : List (ℤ × ℤ) :=
  gapsOfTimestamps expectedInterval
    (((seriesRows s assetId timeframe).map (·.timestamp)).insertionSort (· ≤ ·))

/-! ### Archiving -/

/-- A row of `ohlcv_data_archive` (same shape plus the `archived_at`
instant filled by the column default). -/
structure ArchiveRow where
  row : OHLCVData
  archivedAt : ℤ
deriving DecidableEq, Repr

/-- `OHLCVRepository.archiveDataBeforeDate`: inside one transaction, copy
every live row with `timestamp < beforeDate` into the archive with
`INSERT OR IGNORE` (the archive's primary key is the row `id`), then delete
every live row with `timestamp < beforeDate`; return
`(archived, deleted) = (rows copied, rows deleted)` together with the new
live store and archive. -/
def archiveDataBeforeDate (live : OHLCVStore) (archive : List ArchiveRow)
    (beforeDate now : ℤ) : (ℕ × ℕ) × OHLCVStore × List ArchiveRow :=
  let toArchive := live.rows.filter fun r => decide (r.timestamp < beforeDate)
  let fresh := toArchive.filter fun r => ! archive.any fun a => decide (a.row.id = r.id)
  let archNew := archive ++ fresh.map fun r => ⟨r, now⟩
  let remaining := live.rows.filter fun r => ! decide (r.timestamp < beforeDate)
  ((fresh.length, toArchive.length), ⟨remaining⟩, archNew)

/-! ### Statistics -/

/-- Maximum of a list of rationals (`0` on the empty list, matching the
SQL `MAX(...) → NULL → || 0` path of the source). -/
def qmaxList : List ℚ → ℚ
  | [] => 0
  | x :: t => t.foldl max x

/-- Minimum of a list of rationals (`0` on the empty list). -/
def qminList : List ℚ → ℚ
  | [] => 0
  | x :: t => t.foldl min x

/-- The result shape of `getStatistics`. -/
structure OHLCVStatistics where
  count : ℕ
  avgVolume : ℚ
  maxHigh : ℚ
  minLow : ℚ
  firstOpen : Option ℚ
  lastClose : Option ℚ
deriving DecidableEq, Repr

/-- `OHLCVRepository.getStatistics`: `count`, `avgVolume`, `maxHigh` and
`minLow` aggregate the rows inside the optional `[tsFrom, tsTo]` window
(SQL `timestamp >= ?` / `timestamp <= ?`), but `firstOpen` and `lastClose`
come from two separate `ORDER BY timestamp` / `LIMIT 1` queries that carry
no window condition.  The SQL `CAST(... AS REAL)` steps are idealized as
exact rational arithmetic (no claim about this function concerns binary
rounding). -/
def getStatistics (s : OHLCVStore) (assetId : String) (timeframe : OHLCVTimeframe)
    (tsFrom tsTo : Option ℤ) : OHLCVStatistics :=
  let keyRows := seriesRows s assetId timeframe
  let windowRows := keyRows.filter fun r =>
    (tsFrom.all fun f => decide (f ≤ r.timestamp)) &&
    (tsTo.all fun t => decide (r.timestamp ≤ t))
  let sorted := sortByTimestamp keyRows
  { count := windowRows.length
    avgVolume :=
      if windowRows.length = 0 then 0
      else (windowRows.map (·.volume)).sum / (windowRows.length : ℚ)
    maxHigh := qmaxList (windowRows.map (·.high))
    minLow := qminList (windowRows.map (·.low))
    firstOpen := sorted.head?.map (·.opn)
    lastClose := sorted.getLast?.map (·.close) }

/-- The statistics contract as the claim C3 words it: the same `tsFrom` /
`tsTo` window applied to all five aggregates, `firstOpen` / `lastClose`
being the open of the chronologically first and the close of the
chronologically last row inside the window. -/
def statisticsWindowedSpec (s : OHLCVStore) (assetId : String)
    (timeframe : OHLCVTimeframe) (tsFrom tsTo : Option ℤ) : OHLCVStatistics :=
  let keyRows := seriesRows s assetId timeframe
  let windowRows := keyRows.filter fun r =>
    (tsFrom.all fun f => decide (f ≤ r.timestamp)) &&
    (tsTo.all fun t => decide (r.timestamp ≤ t))
  let sorted := sortByTimestamp windowRows
  { count := windowRows.length
    avgVolume :=
      if windowRows.length = 0 then 0
      else (windowRows.map (·.volume)).sum / (windowRows.length : ℚ)
    maxHigh := qmaxList (windowRows.map (·.high))
    minLow := qminList (windowRows.map (·.low))
    firstOpen := sorted.head?.map (·.opn)
    lastClose := sorted.getLast?.map (·.close) }

/-! ### Resampling (compression) -/

/-- `Math.floor(timestamp / bucketSize) * bucketSize`: the epoch-aligned
bucket start (`Int.fdiv` is floor division, as `Math.floor` on the real
quotient). -/
def bucketStart (bucketSize ts : ℤ) : ℤ :=
  Int.fdiv ts bucketSize * bucketSize

/-- Keys of a JS `Map` in insertion order: first occurrence of each value. -/
def firstOccurrences (l : List ℤ) : List ℤ :=
  l.foldl (fun acc x => if x ∈ acc then acc else acc ++ [x]) []

/-- A synthesized bucket candle before insertion. -/
structure BucketCandle where
  timestamp : ℤ
  opn : ℚ
  high : ℚ
  low : ℚ
  close : ℚ
  volume : ℚ
deriving DecidableEq, Repr

/-- Synthesis of one bucket in `compressDataToTimeframe` (`none` for the
empty bucket, which the source skips with `continue`):
`open` / `close` are the stored strings of the first / last row taken
verbatim; `high` / `low` / `volume` go through `parseFloat` and binary64
arithmetic - `Math.max`, `Math.min` and a `reduce` of double additions -
so every parsed value and every partial sum is rounded by `roundDouble`. -/
def synthesizeBucket (bucketTs : ℤ) : List OHLCVData → Option BucketCandle
  | [] => none
  | d :: rest =>
      some
        { timestamp := bucketTs
          opn := d.opn
          close := (rest.getLastD d).close
          high := (rest.map fun r => roundDouble r.high).foldl max (roundDouble d.high)
          low := (rest.map fun r => roundDouble r.low).foldl min (roundDouble d.low)
          volume := ((d :: rest).map (·.volume)).foldl
            (fun sum v => roundDouble (sum + roundDouble v)) 0 }

/-- The insertion loop of `compressDataToTimeframe`: one `INSERT OR
IGNORE` per synthesized bucket candle, counting inserted rows. -/
def compressInsertAux (assetId : String) (toTimeframe : OHLCVTimeframe)
    (src : String) (gen : ℕ → String) (now : ℤ) (rawData : List OHLCVData)
    (bucketSize : ℤ) :
    List ℤ → ℕ → OHLCVStore → ℕ → ℕ × OHLCVStore
  | [], _, s, inserted => (inserted, s)
  | bucketTs :: rest, i, s, inserted =>
      match synthesizeBucket bucketTs
          (rawData.filter fun r => decide (bucketStart bucketSize r.timestamp = bucketTs)) with
      | none => compressInsertAux assetId toTimeframe src gen now rawData bucketSize
          rest (i + 1) s inserted
      | some c =>
          if keyPresent s (assetId, toTimeframe, bucketTs) then
            compressInsertAux assetId toTimeframe src gen now rawData bucketSize
              rest (i + 1) s inserted
          else
            compressInsertAux assetId toTimeframe src gen now rawData bucketSize
              rest (i + 1)
              ⟨s.rows ++ [{ id := gen i
                            assetId := assetId
                            timeframe := toTimeframe
                            timestamp := bucketTs
                            opn := c.opn
                            high := c.high
                            low := c.low
                            close := c.close
                            volume := c.volume
                            source := some src
                            createdAt := now }]⟩
              (inserted + 1)

/-- `OHLCVRepository.compressDataToTimeframe`: validate that the target
timeframe is strictly larger, read the source rows with
`timestamp < beforeDate` ascending, partition them into epoch-aligned
buckets of the target duration (a JS `Map` keyed by bucket start, iterated
in insertion order), synthesize one candle per bucket and insert it with
`INSERT OR IGNORE`; return the count of newly inserted candles.  Source
rows are not deleted. -/
def compressDataToTimeframe (s : OHLCVStore) (assetId : String)
    (fromTimeframe toTimeframe : OHLCVTimeframe) (beforeDate : ℤ)
    (gen : ℕ → String) (now : ℤ) : Except String (ℕ × OHLCVStore) :=
  let fromInterval := timeframeMinutes fromTimeframe
  let toInterval := timeframeMinutes toTimeframe
  if toInterval ≤ fromInterval then
    .error "Target timeframe must be larger than source timeframe"
  else
    let rawData := sortByTimestamp (s.rows.filter fun r =>
      decide (r.assetId = assetId ∧ r.timeframe = fromTimeframe ∧ r.timestamp < beforeDate))
    if rawData.length = 0 then .ok (0, s)
    else
      let bucketSize := toInterval * 60 * 1000
      let bucketKeys := firstOccurrences (rawData.map fun r => bucketStart bucketSize r.timestamp)
      .ok (compressInsertAux assetId toTimeframe
        ("compressed_from_" ++ timeframeName fromTimeframe) gen now rawData bucketSize
        bucketKeys 0 s 0)

/-! ## The statistics engine

`time-series-statistics-engine.ts`.  Inputs are finite JS numbers
(rationals); outputs that pass through division or `Math.sqrt` are
`JsNum`s. -/

/-- The loop of `calculateReturns` over `(previous, price)` pairs. -/
def returnsAux : List (ℚ × ℚ) → Except String (List JsNum)
  | [] => .ok []
  | (previous, price) :: rest =>
      if previous = 0 then .error "Previous price cannot be zero when calculating returns"
      else do
        let tail ← returnsAux rest
        .ok (jsDivNN (.num (price - previous)) (.num previous) :: tail)

/-- `calculateReturns` (the unused `_period` argument is dropped):
requires at least two prices, then maps `(price - previous) / previous`
over consecutive pairs, throwing on a zero previous price. -/
def calculateReturns (prices : List ℚ) : Except String (List JsNum) :=
  if prices.length < 2 then
    .error "At least two price points are required to calculate returns"
  else returnsAux (prices.zip prices.tail)

/-- `calculateSampleStatistics`: mean and sample variance (denominator
`n - 1`).  Every call site guards `n ≥ 2`, so the two divisions are by
nonzero numbers there. -/
def calculateSampleStatistics (values : List ℚ) : ℚ × ℚ :=
  let n : ℚ := values.length
  let mean := values.foldl (· + ·) 0 / n
  let squaredDiffs := values.foldl (fun sum value => sum + (value - mean) * (value - mean)) 0
  (mean, squaredDiffs / (n - 1))

/-- `calculateVolatility`: sample standard deviation of the returns,
multiplied by `sqrt 252` when annualized. -/
def calculateVolatility (S : SqrtFn) (returns : List ℚ) (annualize : Bool) :
    Except String JsNum :=
  if returns.length < 2 then
    .error "At least two return values are required to calculate volatility"
  else
    let stdDev := jsSqrt S (calculateSampleStatistics returns).2
    if !annualize then .ok stdDev
    else .ok (jsMul stdDev (jsSqrt S 252))

/-- The five running sums of the `calculateCorrelation` loop. -/
structure CorrSums where
  sum1 : ℚ
  sum2 : ℚ
  sumProd : ℚ
  sumSq1 : ℚ
  sumSq2 : ℚ
deriving DecidableEq, Repr

/-- One iteration of the `calculateCorrelation` loop. -/
def corrStep (a : CorrSums) (xy : ℚ × ℚ) : CorrSums :=
  ⟨a.sum1 + xy.1, a.sum2 + xy.2, a.sumProd + xy.1 * xy.2,
    a.sumSq1 + xy.1 * xy.1, a.sumSq2 + xy.2 * xy.2⟩

/-- `calculateCorrelation`: Pearson correlation by the sum-of-products
formula; equal lengths and at least two observations are required, and a
zero denominator (the JS `=== 0` test on the square root) throws. -/
def calculateCorrelation (S : SqrtFn) (series1 series2 : List ℚ) :
    Except String JsNum :=
  if series1.length ≠ series2.length then .error "Input series must have same length"
  else if series1.length < 2 then
    .error "At least two observations are required to calculate correlation"
  else
    let n : ℚ := series1.length
    let a := (series1.zip series2).foldl corrStep ⟨0, 0, 0, 0, 0⟩
    let numerator := n * a.sumProd - a.sum1 * a.sum2
    let denominator :=
      jsSqrt S ((n * a.sumSq1 - a.sum1 * a.sum1) * (n * a.sumSq2 - a.sum2 * a.sum2))
    if jsIsZero denominator then
      .error "Variance must be greater than zero to calculate correlation"
    else .ok (jsDivNN (.num numerator) denominator)

/-- The mutable state of the `calculateDrawdown` loop.  `maxStart` /
`maxEnd` embed the `maxDrawdownPeriod` object (`end` is a Lean keyword). -/
structure DrawdownState where
  peak : ℚ
  peakIndex : ℕ
  maxDrawdown : JsNum
  maxStart : ℕ
  maxEnd : ℕ
  drawdowns : List JsNum
  idx : ℕ

/-- One iteration of `calculateDrawdown` (`value > peak` updates the peak,
then `(value - peak) / peak` is pushed, then `drawdown < maxDrawdown`
updates the tracked maximum; both comparisons are JS comparisons). -/
def drawdownStep (st : DrawdownState) (value : ℚ) : DrawdownState :=
  let peak := if st.peak < value then value else st.peak
  let peakIndex := if st.peak < value then st.idx else st.peakIndex
  let drawdown := jsDivNN (.num (value - peak)) (.num peak)
  let upd := jsLt drawdown st.maxDrawdown
  { peak := peak
    peakIndex := peakIndex
    maxDrawdown := if upd then drawdown else st.maxDrawdown
    maxStart := if upd then peakIndex else st.maxStart
    maxEnd := if upd then st.idx else st.maxEnd
    drawdowns := st.drawdowns ++ [drawdown]
    idx := st.idx + 1 }

/-- The result shape of `calculateDrawdown`. -/
structure DrawdownResult where
  drawdowns : List JsNum
  maxDrawdown : JsNum
  maxStart : ℕ
  maxEnd : ℕ
  averageDrawdown : JsNum
deriving DecidableEq, Repr

/-- `calculateDrawdown`: running-peak loop over the values (peak seeded
with `values[0]`), then `averageDrawdown` as the sum of the emitted series
divided by its length. -/
def calculateDrawdown (values : List ℚ) : Except String DrawdownResult :=
  match values with
  | [] => .error "At least one value is required to calculate drawdown"
  | v0 :: _ =>
      let st := values.foldl drawdownStep
        { peak := v0, peakIndex := 0, maxDrawdown := .num 0, maxStart := 0, maxEnd := 0
          drawdowns := [], idx := 0 }
      .ok
        { drawdowns := st.drawdowns
          maxDrawdown := st.maxDrawdown
          maxStart := st.maxStart
          maxEnd := st.maxEnd
          averageDrawdown :=
            jsDivNN (st.drawdowns.foldl jsAdd (.num 0)) (.num st.drawdowns.length) }

/-- `calculateSharpeRatio`: mean excess return over the sample standard
deviation of the excess returns; zero variance throws. -/
def calculateSharpeRatio (S : SqrtFn) (returns : List ℚ) (riskFreeRate : ℚ) :
    Except String JsNum :=
  if returns.length < 2 then
    .error "At least two return values are required to calculate Sharpe ratio"
  else
    let ms := calculateSampleStatistics (returns.map fun value => value - riskFreeRate)
    if ms.2 = 0 then
      .error "Return variance must be greater than zero to calculate Sharpe ratio"
    else .ok (jsDivNN (.num ms.1) (jsSqrt S ms.2))

/-- `calculateHistoricalVaR`: sort ascending, take the value at
`max(0, ceil((1 - confidence) * n) - 1)`; an empty list or a confidence
outside the open interval `(0, 1)` throws. -/
def calculateHistoricalVaR (returns : List ℚ) (confidence : ℚ) : Except String ℚ :=
  if returns.length = 0 then
    .error "At least one return value is required to calculate VaR"
  else if confidence ≤ 0 ∨ 1 ≤ confidence then
    .error "confidence must be between 0 and 1"
  else
    let sorted := returns.insertionSort (· ≤ ·)
    let position := (max 0 (⌈(1 - confidence) * (sorted.length : ℚ)⌉ - 1)).toNat
    .ok (sorted.getD position 0)

/-- Error-propagating map (the JS `for` loop rethrowing the first error). -/
def exceptMapList {α β : Type} (f : α → Except String β) :
    List α → Except String (List β)
  | [] => .ok []
  | x :: rest => do
      let y ← f x
      let tail ← exceptMapList f rest
      .ok (y :: tail)

/-- One entry of the correlation matrix: `1` on the diagonal, the mirrored
earlier entry below it (`matrix[j][i]` read from the rows already built),
a fresh `calculateCorrelation` above it. -/
def corrEntry (S : SqrtFn) (series : List (List ℚ)) (acc : List (List JsNum))
    (i j : ℕ) : Except String JsNum :=
  if i = j then .ok (.num 1)
  else if j < i then .ok ((acc.getD j []).getD i (.num 0))
  else calculateCorrelation S (series.getD i []) (series.getD j [])

/-- The row-major double loop of `calculateCorrelationMatrix`: build the
first `n` rows, each row reading mirrored entries from the rows before
it. -/
def buildCorrRows (S : SqrtFn) (series : List (List ℚ)) :
    ℕ → Except String (List (List JsNum))
  | 0 => .ok []
  | n + 1 => do
      let acc ← buildCorrRows S series n
      let row ← exceptMapList (corrEntry S series acc n) (List.range series.length)
      .ok (acc ++ [row])

/-- `calculateCorrelationMatrix`: validations (nonempty, first series of
length at least two, all series of equal length), then the double loop. -/
def calculateCorrelationMatrix (S : SqrtFn) (series : List (List ℚ)) :
    Except String (List (List JsNum)) :=
  if series.length = 0 then
    .error "At least one series is required to calculate correlation matrix"
  else
    let length := (series.headD []).length
    if length < 2 then
      .error "At least two observations are required to calculate correlation matrix"
    else if series.any fun s => decide (s.length ≠ length) then
      .error "All series must have the same length"
    else buildCorrRows S series series.length

/-! ## Derived notions used by the claim statements -/

instance {ε α : Type} [DecidableEq ε] [DecidableEq α] : DecidableEq (Except ε α) :=
  fun x y =>
    match x, y with
    | .ok a, .ok b =>
        if h : a = b then .isTrue (by rw [h])
        else .isFalse (by intro hc; cases hc; exact h rfl)
    | .error a, .error b =>
        if h : a = b then .isTrue (by rw [h])
        else .isFalse (by intro hc; cases hc; exact h rfl)
    | .ok _, .error _ => .isFalse (by intro hc; cases hc)
    | .error _, .ok _ => .isFalse (by intro hc; cases hc)

/-- A finite, nonpositive JS number (the shape the spec asserts for every
drawdown entry). -/
def JsNum.nonposNum : JsNum → Prop
  | .num q => q ≤ 0
  | _ => False

instance : DecidablePred JsNum.nonposNum := by
  intro x; cases x <;> simp [JsNum.nonposNum] <;> infer_instance

/-- The running peaks of the drawdown loop, given the incoming peak `p`:
entry `i` is the peak in force when index `i` is processed. -/
def peaksAux (p : ℚ) : List ℚ → List ℚ
  | [] => []
  | v :: t => (if p < v then v else p) :: peaksAux (if p < v then v else p) t

/-- The running peaks of `calculateDrawdown` (peak seeded with the first
value). -/
def peaksList : List ℚ → List ℚ
  | [] => []
  | v :: t => peaksAux v (v :: t)

/-- The number of requests in a batch whose key duplicates one of the keys
in `seen` or the key of an earlier request of the batch (the `k` of claim
C2, with `seen` the keys already stored). -/
def duplicateCount (seen : List (String × OHLCVTimeframe × ℤ)) :
    List CreateOHLCVRequest → ℕ
  | [] => 0
  | r :: rest =>
      (if requestKey r ∈ seen then 1 else 0) + duplicateCount (requestKey r :: seen) rest

/-- Whether every `parseFloat`ed value and every partial sum of the JS
`reduce`-of-additions starting from `acc` is exactly representable as a
binary64 double (so that the floating-point sum incurs no rounding). -/
def floatSumFixedB : ℚ → List ℚ → Bool
  | _, [] => true
  | acc, v :: rest =>
      decide (roundDouble v = v) && decide (roundDouble (acc + v) = acc + v) &&
        floatSumFixedB (acc + v) rest

/-! ## Concrete fixtures

Stores and inputs used by the concrete parts of the claims (the worked
examples of spec section 8 and the counterexample inputs). -/

/-- A fixture id generator for environment-supplied UUIDs. -/
def sampleGen : ℕ → String := fun i => String.mk (List.replicate i 'u')

/-- A stored row fixture: hourly candle of asset `btc` at minute offset
`m`, with the given OHLCV values. -/
def hourRow (id : String) (m : ℤ) (o h l c v : ℚ) : OHLCVData :=
  ⟨id, "btc", .h1, m * 60000, o, h, l, c, v, some "binance", 0⟩

/-- A stored row fixture: 1-minute candle of asset `btc` at minute offset
`m`. -/
def minuteRow (id : String) (m : ℤ) (o h l c v : ℚ) : OHLCVData :=
  ⟨id, "btc", .m1, m * 60000, o, h, l, c, v, some "binance", 0⟩

/-- A request fixture: hourly candle of asset `btc` at minute offset `m`. -/
def hourRequest (m : ℤ) (o h l c v : ℚ) : CreateOHLCVRequest :=
  ⟨"btc", .h1, m * 60000, o, h, l, c, v, some "binance"⟩

/-- The store of the repository's own `getStatistics` test: hourly candles
at minute offsets 0, 60, 120, 180 with opens 10/20/30/40, highs
15/25/35/45, lows 9/19/29/39, closes 11/21/31/41 and volumes
100/200/300/400. -/
def statsFixtureStore : OHLCVStore :=
  ⟨[hourRow "a" 0 10 15 9 11 100, hourRow "b" 60 20 25 19 21 200,
    hourRow "c" 120 30 35 29 31 300, hourRow "d" 180 40 45 39 41 400]⟩

/-- The store of the gap-detection example: hourly candles at minute
offsets 0, 60 and 240. -/
def gapFixtureStore : OHLCVStore :=
  ⟨[hourRow "a" 0 100 110 90 105 1000, hourRow "b" 60 100 110 90 105 1000,
    hourRow "c" 240 100 110 90 105 1000]⟩

/-- The three 1-minute candles of the spec's resampling example
(`10/15/9/12/5`, `12/14/11/13/3`, `13/16/12/14/2`). -/
def compressExampleStore : OHLCVStore :=
  ⟨[minuteRow "a" 0 10 15 9 12 5, minuteRow "b" 1 12 14 11 13 3,
    minuteRow "c" 2 13 16 12 14 2]⟩

/-- The rows of the single bucket formed by `compressExampleStore`. -/
def exampleBucketRows : List OHLCVData :=
  [minuteRow "a" 0 10 15 9 12 5, minuteRow "b" 1 12 14 11 13 3,
    minuteRow "c" 2 13 16 12 14 2]

/-- Two 1-minute candles whose volumes are the decimal strings `0.1` and
`0.2`: the bucket sum drifts under binary64 arithmetic. -/
def driftStore : OHLCVStore :=
  ⟨[minuteRow "a" 0 10 15 9 12 (1 / 10), minuteRow "b" 1 12 14 11 13 (2 / 10)]⟩

/-- The exact rational value of the binary64 double `0.1 + 0.2`
(`0.30000000000000004...`), the volume the resampler stores for
`driftStore`. -/
def driftVolume : ℚ := mkRat 1351079888211149 4503599627370496

/-- The request fixture for the duplicate-insert claim. -/
def c1Request : CreateOHLCVRequest := hourRequest 0 100 110 90 105 1000

/-- The candle the resampler synthesizes from `exampleBucketRows`:
`open = 10`, `high = 16`, `low = 9`, `close = 14`, `volume = 10`. -/
def exampleCandle : BucketCandle := ⟨0, 10, 16, 9, 14, 10⟩

/-- The observable fields of a stored row (everything except the
environment-supplied id and creation time), used to state concrete
evaluations. -/
structure RowView where
  timestamp : ℤ
  opn : ℚ
  high : ℚ
  low : ℚ
  close : ℚ
  volume : ℚ
  source : Option String
deriving DecidableEq, Repr

/-- Project a stored row to its observable fields. -/
def rowView (r : OHLCVData) : RowView :=
  ⟨r.timestamp, r.opn, r.high, r.low, r.close, r.volume, r.source⟩

/-! ## Helper lemmas -/

theorem filter_not_filter {α : Type} (l : List α) (p : α → Bool) :
    (l.filter fun a => !p a).filter p = [] := by
  induction l with
  | nil => rfl
  | cons a t ih => cases hpa : p a <;> simp [List.filter_cons, hpa, ih]

theorem filter_not_idem {α : Type} (l : List α) (p : α → Bool) :
    ((l.filter fun a => !p a).filter fun a => !p a) = l.filter fun a => !p a := by
  induction l with
  | nil => rfl
  | cons a t ih => cases hpa : p a <;> simp [List.filter_cons, hpa, ih]

theorem getD_eq_get {α : Type} (l : List α) (d : α) :
    ∀ i (h : i < l.length), l.getD i d = l.get ⟨i, h⟩ := by
  induction l with
  | nil => intro i h; simp at h
  | cons a t ih =>
      intro i h
      cases i with
      | zero => rfl
      | succ j => exact ih j (Nat.lt_of_succ_lt_succ h)

theorem keyPresent_false_iff (s : OHLCVStore) (k : String × OHLCVTimeframe × ℤ) :
    keyPresent s k = false ↔ ∀ r ∈ s.rows, rowKey r ≠ k := by
  simp [keyPresent]

theorem matchesFilters_key (k : String × OHLCVTimeframe × ℤ) (r : OHLCVData) :
    matchesFilters ⟨some k.1, some k.2.1, some k.2.2, some k.2.2⟩ r
      = decide (rowKey r = k) := by
  obtain ⟨a, tf, ts⟩ := k
  simp only [matchesFilters, Option.all, rowKey, ← Bool.decide_and, decide_eq_decide,
    Prod.mk.injEq]
  constructor
  · rintro ⟨⟨⟨h1, h2⟩, h3⟩, h4⟩
    exact ⟨h1, h2, le_antisymm h4 h3⟩
  · rintro ⟨h1, h2, h3⟩
    exact ⟨⟨⟨h1, h2⟩, le_of_eq h3.symm⟩, le_of_eq h3⟩

theorem countKey_eq (s : OHLCVStore) (k : String × OHLCVTimeframe × ℤ) :
    countKey s k = (s.rows.filter fun r => decide (rowKey r = k)).length := by
  unfold countKey count
  congr 1
  exact List.filter_congr fun r _ => matchesFilters_key k r

/-! ## Claim C5 -/

/-- C5: `archiveBefore(cutoff)` is idempotent — after a successful run,
re-running `archiveDataBeforeDate` with the same cutoff archives nothing
and deletes nothing, returning `(archived, deleted) = (0, 0)`, and leaves
both the live store and the archive unchanged. -/
theorem archiveBefore_idempotent (live : OHLCVStore) (archive : List ArchiveRow)
    (cutoff t1 t2 : ℤ) :
    (archiveDataBeforeDate (archiveDataBeforeDate live archive cutoff t1).2.1
        (archiveDataBeforeDate live archive cutoff t1).2.2 cutoff t2).1 = (0, 0) ∧
    (archiveDataBeforeDate (archiveDataBeforeDate live archive cutoff t1).2.1
        (archiveDataBeforeDate live archive cutoff t1).2.2 cutoff t2).2.1
      = (archiveDataBeforeDate live archive cutoff t1).2.1 ∧
    (archiveDataBeforeDate (archiveDataBeforeDate live archive cutoff t1).2.1
        (archiveDataBeforeDate live archive cutoff t1).2.2 cutoff t2).2.2
      = (archiveDataBeforeDate live archive cutoff t1).2.2 := by
  have h1 := filter_not_filter live.rows fun r => decide (r.timestamp < cutoff)
  have h2 := filter_not_idem live.rows fun r => decide (r.timestamp < cutoff)
  refine ⟨?_, ?_, ?_⟩ <;> simp [archiveDataBeforeDate, h1, h2]

/-! ## Claim C6 -/

theorem gapsOf_eq_filterMap (expectedInterval : ℤ) (ts : List ℤ) :
    gapsOfTimestamps expectedInterval ts
      = (ts.zip ts.tail).filterMap fun p =>
          if p.1 + expectedInterval * 60 * 1000 < p.2 then
            some (p.1 + expectedInterval * 60 * 1000, p.2 - expectedInterval * 60 * 1000)
          else none := by
  induction ts with
  | nil => rfl
  | cons x t ih =>
      cases t with
      | nil => rfl
      | cons y rest =>
          simp only [gapsOfTimestamps, ih, List.tail_cons, List.zip_cons_cons,
            List.filterMap_cons]
          by_cases h : x + expectedInterval * 60 * 1000 < y <;> simp [h]

/-- C6: `findDataGaps` loads the key's timestamps ascending and, for each
consecutive pair `(current, next)` with `next > current + interval`, emits
exactly the gap `(current + interval, next - interval)` (interval in
milliseconds); with fewer than two rows it returns the empty list; on
candles at minute offsets 0, 60, 240 with `expectedIntervalMinutes = 60`
it returns exactly the single gap from minute offset 120 to minute offset
180. -/
theorem findDataGaps_spec :
    (∀ (expectedInterval : ℤ) (ts : List ℤ),
      gapsOfTimestamps expectedInterval ts
        = (ts.zip ts.tail).filterMap fun p =>
            if p.1 + expectedInterval * 60 * 1000 < p.2 then
              some (p.1 + expectedInterval * 60 * 1000, p.2 - expectedInterval * 60 * 1000)
            else none) ∧
    (∀ (expectedInterval : ℤ) (ts : List ℤ), ts.length < 2 →
      gapsOfTimestamps expectedInterval ts = []) ∧
    findDataGaps gapFixtureStore "btc" OHLCVTimeframe.h1 60 = [(7200000, 10800000)] := by
  refine ⟨gapsOf_eq_filterMap, ?_, by decide⟩
  intro expectedInterval ts h
  match ts with
  | [] => rfl
  | [_] => rfl
  | _ :: _ :: _ => simp at h; omega

/-- Witness for C6 at a concrete input: the under-two-rows clause applied
to a single timestamp, and the fixture evaluation restated. -/
theorem findDataGaps_spec_witness :
    gapsOfTimestamps 60 [0] = [] ∧
    findDataGaps gapFixtureStore "btc" OHLCVTimeframe.h1 60 = [(7200000, 10800000)] :=
  ⟨findDataGaps_spec.2.1 60 [0] (by decide), findDataGaps_spec.2.2⟩

/-! ## Claim C1 -/

/-- C1: inserting the same `(assetId, timeframe, timestamp)` key twice is
a silent no-op that never raises — both `create` calls return `ok`, the
second call returns the record of the first unchanged and leaves the store
untouched, and the stored row count for the key goes from 0 to exactly 1,
not 2. -/
theorem create_duplicate_noop (s : OHLCVStore) (request : CreateOHLCVRequest)
    (id1 id2 : String) (t1 t2 : ℤ)
    (habsent : keyPresent s (requestKey request) = false) :
    ∃ r1 s1 r2 s2,
      create s request id1 t1 = .ok (r1, s1) ∧
      create s1 request id2 t2 = .ok (r2, s2) ∧
      r2 = r1 ∧ s2 = s1 ∧
      countKey s (requestKey request) = 0 ∧
      countKey s1 (requestKey request) = 1 ∧
      countKey s2 (requestKey request) = 1 := by
  have habs := (keyPresent_false_iff s (requestKey request)).mp habsent
  set row := mkRow request id1 t1 with hrow
  have hkey : rowKey row = requestKey request := rfl
  have hfilter : (s.rows.filter fun r => decide (rowKey r = requestKey request)) = [] := by
    apply List.filter_eq_nil_iff.mpr
    intro r hr
    simpa using habs r hr
  have hc1 : create s request id1 t1 = .ok (row, ⟨s.rows ++ [row]⟩) := by
    unfold create
    rw [habsent]
    rfl
  have hpresent : keyPresent ⟨s.rows ++ [row]⟩ (requestKey request) = true := by
    simp only [keyPresent, List.any_append, Bool.or_eq_true, List.any_eq_true]
    exact Or.inr ⟨row, List.mem_singleton_self row, by simp [hkey]⟩
  have hfind : (s.rows ++ [row]).find?
      (fun r => decide (rowKey r = (request.assetId, request.timeframe, request.timestamp)))
      = some row := by
    rw [List.find?_append]
    have : s.rows.find?
        (fun r => decide (rowKey r = (request.assetId, request.timeframe, request.timestamp)))
        = none := by
      apply List.find?_eq_none.mpr
      intro r hr
      simpa using habs r hr
    simp [this, List.find?, hkey, requestKey]
  have hc2 : create ⟨s.rows ++ [row]⟩ request id2 t2 = .ok (row, ⟨s.rows ++ [row]⟩) := by
    unfold create
    rw [hpresent]
    simp only [getByAssetTimeframeTimestamp, hfind]
    simp
  refine ⟨row, ⟨s.rows ++ [row]⟩, row, ⟨s.rows ++ [row]⟩, hc1, hc2, rfl, rfl, ?_, ?_, ?_⟩ <;>
    rw [countKey_eq] <;>
    simp [List.filter_append, hfilter, hkey]

/-- Witness for C1: the duplicate-insert theorem applied to the empty
store and the fixture request. -/
theorem create_duplicate_noop_witness :
    keyPresent ⟨[]⟩ (requestKey c1Request) = false ∧
    ∃ r1 s1 r2 s2,
      create ⟨[]⟩ c1Request "id1" 11 = .ok (r1, s1) ∧
      create s1 c1Request "id2" 22 = .ok (r2, s2) ∧
      r2 = r1 ∧ s2 = s1 ∧
      countKey ⟨[]⟩ (requestKey c1Request) = 0 ∧
      countKey s1 (requestKey c1Request) = 1 ∧
      countKey s2 (requestKey c1Request) = 1 :=
  ⟨by decide, create_duplicate_noop ⟨[]⟩ c1Request "id1" "id2" 11 22 (by decide)⟩

/-! ## Claim C2 -/

theorem keyPresent_iff_mem (s : OHLCVStore) (k : String × OHLCVTimeframe × ℤ) :
    keyPresent s k = true ↔ k ∈ s.rows.map rowKey := by
  simp only [keyPresent, List.any_eq_true, decide_eq_true_eq, List.mem_map]

theorem duplicateCount_congr :
    ∀ (l : List CreateOHLCVRequest) (s1 s2 : List (String × OHLCVTimeframe × ℤ)),
      (∀ k, k ∈ s1 ↔ k ∈ s2) → duplicateCount s1 l = duplicateCount s2 l := by
  intro l
  induction l with
  | nil => intro s1 s2 _; rfl
  | cons r rest ih =>
      intro s1 s2 h
      simp only [duplicateCount]
      have hif : (if requestKey r ∈ s1 then 1 else 0)
          = (if requestKey r ∈ s2 then 1 else 0) := by
        by_cases hx : requestKey r ∈ s1
        · rw [if_pos hx, if_pos ((h _).mp hx)]
        · rw [if_neg hx, if_neg (fun hc => hx ((h _).mpr hc))]
      rw [hif, ih (requestKey r :: s1) (requestKey r :: s2)
        (fun k => by simp only [List.mem_cons, h k])]

theorem bulkCreateAux_spec (gen : ℕ → String) (now : ℤ) :
    ∀ (requests : List CreateOHLCVRequest) (i : ℕ) (s : OHLCVStore) (acc : ℕ),
      (bulkCreateAux gen now requests i s acc).1
          + duplicateCount (s.rows.map rowKey) requests = acc + requests.length ∧
      (bulkCreateAux gen now requests i s acc).2.rows.length + acc
        = s.rows.length + (bulkCreateAux gen now requests i s acc).1 := by
  intro requests
  induction requests with
  | nil => intro i s acc; simp [bulkCreateAux, duplicateCount]
  | cons r rest ih =>
      intro i s acc
      by_cases hk : keyPresent s (requestKey r) = true
      · have hmem : requestKey r ∈ s.rows.map rowKey := (keyPresent_iff_mem s _).mp hk
        have hdup : duplicateCount (requestKey r :: s.rows.map rowKey) rest
            = duplicateCount (s.rows.map rowKey) rest :=
          duplicateCount_congr rest _ _ (fun k => by
            simp only [List.mem_cons]
            constructor
            · rintro (rfl | hkk)
              · exact hmem
              · exact hkk
            · exact Or.inr)
        have hstep : bulkCreateAux gen now (r :: rest) i s acc
            = bulkCreateAux gen now rest (i + 1) s acc := by
          simp [bulkCreateAux, hk]
        obtain ⟨ih1, ih2⟩ := ih (i + 1) s acc
        rw [hstep]
        refine ⟨?_, ih2⟩
        simp only [duplicateCount, if_pos hmem, hdup, List.length_cons]
        omega
      · rw [Bool.not_eq_true] at hk
        have hmem : requestKey r ∉ s.rows.map rowKey := by
          intro hc
          rw [(keyPresent_iff_mem s _).mpr hc] at hk
          cases hk
        have hkeys : (⟨s.rows ++ [mkRow r (gen i) now]⟩ : OHLCVStore).rows.map rowKey
            = s.rows.map rowKey ++ [requestKey r] := by
          simp [mkRow, rowKey, requestKey]
        have hdup : duplicateCount (requestKey r :: s.rows.map rowKey) rest
            = duplicateCount ((⟨s.rows ++ [mkRow r (gen i) now]⟩ :
                OHLCVStore).rows.map rowKey) rest :=
          duplicateCount_congr rest _ _
            (fun k => by
              simp only [hkeys, List.mem_cons, List.mem_append, List.mem_singleton]
              tauto)
        have hstep : bulkCreateAux gen now (r :: rest) i s acc
            = bulkCreateAux gen now rest (i + 1) ⟨s.rows ++ [mkRow r (gen i) now]⟩
                (acc + 1) := by
          simp [bulkCreateAux, hk]
        obtain ⟨ih1, ih2⟩ := ih (i + 1) ⟨s.rows ++ [mkRow r (gen i) now]⟩ (acc + 1)
        rw [hstep]
        have hlen : (⟨s.rows ++ [mkRow r (gen i) now]⟩ : OHLCVStore).rows.length
            = s.rows.length + 1 := by simp
        constructor
        · simp only [duplicateCount, if_neg hmem, List.length_cons]
          rw [hdup]
          omega
        · omega

/-- C2: `bulkCreate` of a batch of `N` requests of which `k` duplicate an
existing row's key or an earlier request's key (`duplicateCount`) skips
each duplicate individually, returns exactly `N - k` as the inserted
count, and grows the stored row count by exactly `N - k`.  The source runs
the loop inside one `db.transaction`, which the pure embedding renders as
a single state transition. -/
theorem bulkCreate_dedup_count (s : OHLCVStore) (requests : List CreateOHLCVRequest)
    (gen : ℕ → String) (now : ℤ) :
    (bulkCreate s requests gen now).1
        = requests.length - duplicateCount (s.rows.map rowKey) requests ∧
    duplicateCount (s.rows.map rowKey) requests ≤ requests.length ∧
    (bulkCreate s requests gen now).2.rows.length
      = s.rows.length + (requests.length - duplicateCount (s.rows.map rowKey) requests) := by
  obtain ⟨h1, h2⟩ := bulkCreateAux_spec gen now requests 0 s 0
  unfold bulkCreate
  omega

/-! ## Claim C3 -/

/-- C3: evaluation of `getStatistics` at the store of the repository's own
range-statistics test (hourly rows at minute offsets 0/60/120/180, window
minutes 60 to 150).  The four numeric aggregates follow the window
(`count = 2`, `avgVolume = 250`, `maxHigh = 35`, `minLow = 19`), but
`firstOpen` / `lastClose` come from the unwindowed series: the code
returns 10 and 41 (all-time first open and last close), while the claimed
consistently-windowed contract - and the repository's own test, which
expects 20 and 31 - requires the windowed values.  The code contradicts
its own test, so the claim stands and the code is wrong. -/
theorem getStatistics_window_divergence :
    getStatistics statsFixtureStore "btc" OHLCVTimeframe.h1 (some 3600000) (some 9000000)
      = ⟨2, 250, 35, 19, some 10, some 41⟩ ∧
    statisticsWindowedSpec statsFixtureStore "btc" OHLCVTimeframe.h1
        (some 3600000) (some 9000000)
      = ⟨2, 250, 35, 19, some 20, some 31⟩ ∧
    getStatistics statsFixtureStore "btc" OHLCVTimeframe.h1 (some 3600000) (some 9000000)
      ≠ statisticsWindowedSpec statsFixtureStore "btc" OHLCVTimeframe.h1
          (some 3600000) (some 9000000) :=
  ⟨by decide, by decide, by decide⟩

/-! ## Claim C4 -/

theorem floatSum_fixed :
    ∀ (l : List ℚ) (acc : ℚ), floatSumFixedB acc l = true →
      l.foldl (fun sum v => roundDouble (sum + roundDouble v)) acc = acc + l.sum := by
  intro l
  induction l with
  | nil => intro acc _; simp
  | cons v t ih =>
      intro acc h
      simp only [floatSumFixedB, Bool.and_eq_true, decide_eq_true_eq] at h
      obtain ⟨⟨hv, hs⟩, ht⟩ := h
      simp only [List.foldl_cons, List.sum_cons, hv, hs]
      rw [ih (acc + v) ht]
      ring

/-- C4 counterexample: on a bucket whose volumes are the decimal values
`0.1` and `0.2`, the resampler stores the binary64 sum
`0.30000000000000004...` (`driftVolume`), which differs from the exact
arbitrary-precision decimal sum `0.3` - the synthesis is not free of
binary floating-point rounding. -/
theorem compress_float_drift_counterexample :
    (compressDataToTimeframe driftStore "btc" OHLCVTimeframe.m1 OHLCVTimeframe.h1
        3600000 sampleGen 50).toOption.map
        (fun p => (p.1, (p.2.rows.filter fun r =>
          decide (r.timeframe = OHLCVTimeframe.h1)).map (·.volume)))
      = some (1, [driftVolume]) ∧
    driftVolume ≠ 1/10 + 2/10 :=
  ⟨by decide, by decide⟩

/-- C4 amended: for every bucket the synthesized candle takes `open` from
the first row and `close` from the last row verbatim (exact, no floating
point on that path), while `high`, `low` and `volume` are computed through
binary64 arithmetic (`parseFloat`, `Math.max` / `Math.min`, a `reduce` of
double additions); they equal the exact decimal maximum, minimum and sum
whenever every parsed value - and, for the volume, every partial sum - is
exactly representable as a binary64 double (as in the spec's worked
integer example, evaluated in the second conjunct), but not for general
decimal inputs. -/
theorem compress_bucket_amended :
    (∀ (bucketTs : ℤ) (rows : List OHLCVData) (c : BucketCandle),
      synthesizeBucket bucketTs rows = some c →
      (∃ d rest, rows = d :: rest ∧ c.opn = d.opn ∧ c.close = (rest.getLastD d).close) ∧
      ((∀ r ∈ rows, roundDouble r.high = r.high) →
        c.high = qmaxList (rows.map (·.high))) ∧
      ((∀ r ∈ rows, roundDouble r.low = r.low) →
        c.low = qminList (rows.map (·.low))) ∧
      (floatSumFixedB 0 (rows.map (·.volume)) = true →
        c.volume = (rows.map (·.volume)).sum)) ∧
    (compressDataToTimeframe compressExampleStore "btc" OHLCVTimeframe.m1 OHLCVTimeframe.h1
        3600000 sampleGen 50).toOption.map
        (fun p => (p.1, (p.2.rows.filter fun r =>
          decide (r.timeframe = OHLCVTimeframe.h1)).map rowView))
      = some (1, [⟨0, 10, 16, 9, 14, 10, some "compressed_from_1m"⟩]) := by
  constructor
  · rintro bucketTs rows c hsynth
    match rows, hsynth with
    | d :: rest, hsynth =>
        rw [synthesizeBucket] at hsynth
        cases hsynth
        refine ⟨⟨d, rest, rfl, rfl, rfl⟩, ?_, ?_, ?_⟩
        · intro hfix
          have hd : roundDouble d.high = d.high := hfix d (List.mem_cons_self d rest)
          have hrest : (rest.map fun r => roundDouble r.high) = rest.map (·.high) :=
            List.map_congr_left fun r hr => hfix r (List.mem_cons_of_mem d hr)
          simp only [hd, hrest, List.map_cons, qmaxList]
        · intro hfix
          have hd : roundDouble d.low = d.low := hfix d (List.mem_cons_self d rest)
          have hrest : (rest.map fun r => roundDouble r.low) = rest.map (·.low) :=
            List.map_congr_left fun r hr => hfix r (List.mem_cons_of_mem d hr)
          simp only [hd, hrest, List.map_cons, qminList]
        · intro hfix
          have := floatSum_fixed (((d :: rest).map (·.volume))) 0 hfix
          simpa using this
  · decide

/-- Witness for C4 at the spec's worked example: the three integer-valued
minute candles form one bucket whose synthesized candle is exact
(`high = 16 = max`, `volume = 10 = sum`). -/
theorem compress_bucket_amended_witness :
    synthesizeBucket 0 exampleBucketRows = some exampleCandle ∧
    (∀ r ∈ exampleBucketRows, roundDouble r.high = r.high) ∧
    floatSumFixedB 0 (exampleBucketRows.map (·.volume)) = true ∧
    exampleCandle.high = qmaxList (exampleBucketRows.map (·.high)) ∧
    exampleCandle.volume = (exampleBucketRows.map (·.volume)).sum := by
  refine ⟨by decide, by decide, by decide, ?_, ?_⟩
  · exact (compress_bucket_amended.1 0 exampleBucketRows exampleCandle (by decide)).2.1
      (by decide)
  · exact (compress_bucket_amended.1 0 exampleBucketRows exampleCandle (by decide)).2.2.2
      (by decide)

/-! ## Claim C7 -/

theorem peaksAux_length (l : List ℚ) : ∀ p : ℚ, (peaksAux p l).length = l.length := by
  induction l with
  | nil => intro p; rfl
  | cons v t ih => intro p; simp [peaksAux, ih]

theorem peaksAux_mem_pos (l : List ℚ) :
    ∀ p : ℚ, 0 < p → (∀ x ∈ l, 0 < x) → ∀ q ∈ peaksAux p l, 0 < q := by
  induction l with
  | nil => intro p _ _ q hq; cases hq
  | cons v t ih =>
      intro p hp hl q hq
      have hp' : 0 < (if p < v then v else p) := by
        split
        · exact hl v (List.mem_cons_self v t)
        · exact hp
      rcases List.mem_cons.mp hq with rfl | hq'
      · exact hp'
      · exact ih _ hp' (fun x hx => hl x (List.mem_cons_of_mem v hx)) q hq'

theorem zip_peaksAux_le (l : List ℚ) :
    ∀ p : ℚ, ∀ vp ∈ l.zip (peaksAux p l), vp.1 ≤ vp.2 := by
  induction l with
  | nil => intro p vp hvp; cases hvp
  | cons v t ih =>
      intro p vp hvp
      simp only [peaksAux, List.zip_cons_cons, List.mem_cons] at hvp
      rcases hvp with rfl | hvp'
      · by_cases h : p < v
        · simp [h]
        · simpa [h] using le_of_not_lt h
      · exact ih _ vp hvp'

theorem drawdown_fold_dds (values : List ℚ) :
    ∀ st : DrawdownState,
      (values.foldl drawdownStep st).drawdowns
        = st.drawdowns ++ (values.zip (peaksAux st.peak values)).map
            (fun vp => jsDivNN (.num (vp.1 - vp.2)) (.num vp.2)) := by
  induction values with
  | nil => intro st; simp [peaksAux]
  | cons v t ih =>
      intro st
      rw [List.foldl_cons, ih (drawdownStep st v)]
      simp [drawdownStep, peaksAux, List.zip_cons_cons]

/-- C7 counterexample: on the value series `[-1, -2]` the emitted
drawdown series is `[0, 1]` - the entry at index 1 is `+1`, not `≤ 0` -
so the claim fails for general (not-all-positive) inputs. -/
theorem drawdown_negative_counterexample :
    (calculateDrawdown [-1, -2]).toOption.map (·.drawdowns)
      = some [.num 0, .num 1] ∧
    ¬ (∀ d ∈ [JsNum.num 0, JsNum.num 1], d.nonposNum) :=
  ⟨by decide, by decide⟩

/-- C7 amended: for every nonempty series of positive values,
`calculateDrawdown` succeeds, its series is `(value - peak) / peak` over
the running peaks, every entry is a finite nonpositive number, and the
entry is exactly `0` at every index where the value attains the running
maximum (in particular at every new peak). -/
theorem drawdown_entries_amended (values : List ℚ)
    (hne : values ≠ []) (hpos : ∀ x ∈ values, 0 < x) :
    ∃ r, calculateDrawdown values = .ok r ∧
      r.drawdowns = (values.zip (peaksList values)).map
        (fun vp => .num ((vp.1 - vp.2) / vp.2)) ∧
      (∀ d ∈ r.drawdowns, d.nonposNum) ∧
      (∀ i, ∀ hi : i < values.length,
        values.getD i 0 = (peaksList values).getD i 1 →
        r.drawdowns.getD i (.num 1) = .num 0) := by
  match values, hne with
  | v0 :: t, _ =>
    have hv0 : 0 < v0 := hpos v0 (List.mem_cons_self v0 t)
    have hpeakpos : ∀ q ∈ peaksAux v0 (v0 :: t), 0 < q :=
      peaksAux_mem_pos (v0 :: t) v0 hv0 hpos
    have hdds := drawdown_fold_dds (v0 :: t)
      { peak := v0, peakIndex := 0, maxDrawdown := .num 0, maxStart := 0, maxEnd := 0
        drawdowns := [], idx := 0 }
    have hmap : ((v0 :: t).zip (peaksAux v0 (v0 :: t))).map
        (fun vp => jsDivNN (.num (vp.1 - vp.2)) (.num vp.2))
        = ((v0 :: t).zip (peaksAux v0 (v0 :: t))).map
            (fun vp => .num ((vp.1 - vp.2) / vp.2)) := by
      apply List.map_congr_left
      intro vp hvp
      have hp : 0 < vp.2 := hpeakpos vp.2 (List.of_mem_zip hvp).2
      simp [jsDivNN, ne_of_gt hp]
    refine ⟨_, rfl, ?_, ?_, ?_⟩
    · show ((v0 :: t).foldl drawdownStep _).drawdowns = _
      rw [hdds, hmap]
      rfl
    · intro d hd
      simp only [hdds, hmap, List.nil_append] at hd
      rcases List.mem_map.mp hd with ⟨vp, hvp, rfl⟩
      have hp : 0 < vp.2 := hpeakpos vp.2 (List.of_mem_zip hvp).2
      have hle : vp.1 ≤ vp.2 := zip_peaksAux_le (v0 :: t) v0 vp hvp
      show (vp.1 - vp.2) / vp.2 ≤ 0
      exact div_nonpos_iff.mpr (Or.inr ⟨by linarith, le_of_lt hp⟩)
    · intro i hi heq
      have hlen : (peaksAux v0 (v0 :: t)).length = (v0 :: t).length :=
        peaksAux_length (v0 :: t) v0
      have hzlen : ((v0 :: t).zip (peaksAux v0 (v0 :: t))).length = (v0 :: t).length := by
        simp [List.length_zip, hlen]
      have hilt : i < (((v0 :: t).zip (peaksAux v0 (v0 :: t))).map
          (fun vp => JsNum.num ((vp.1 - vp.2) / vp.2))).length := by
        simpa [hzlen] using hi
      show (((v0 :: t).foldl drawdownStep _).drawdowns).getD i (.num 1) = .num 0
      rw [hdds, hmap, List.nil_append, getD_eq_get _ _ i hilt]
      have hizlt : i < ((v0 :: t).zip (peaksAux v0 (v0 :: t))).length := by
        simpa [hzlen] using hi
      rw [List.get_map]
      have hvp := @List.get_zip ℚ ℚ (v0 :: t) (peaksAux v0 (v0 :: t)) ⟨i, hizlt⟩
      rw [hvp]
      have hv : (v0 :: t).get ⟨i, by simpa using hi⟩
          = (peaksAux v0 (v0 :: t)).get ⟨i, by simpa [hlen] using hi⟩ := by
        rw [← getD_eq_get _ 0 i (by simpa using hi),
          ← getD_eq_get _ 1 i (by simpa [hlen] using hi)]
        exact heq
      simp only [hv, sub_self, zero_div]

/-- Witness for C7 at the spec's worked example `[100, 120, 90, 150,
130]` (all positive). -/
theorem drawdown_entries_amended_witness :
    ∃ r, calculateDrawdown [100, 120, 90, 150, 130] = .ok r ∧
      r.drawdowns = (([100, 120, 90, 150, 130] : List ℚ).zip
          (peaksList [100, 120, 90, 150, 130])).map
        (fun vp => .num ((vp.1 - vp.2) / vp.2)) ∧
      (∀ d ∈ r.drawdowns, d.nonposNum) ∧
      (∀ i, ∀ hi : i < ([100, 120, 90, 150, 130] : List ℚ).length,
        ([100, 120, 90, 150, 130] : List ℚ).getD i 0
          = (peaksList [100, 120, 90, 150, 130]).getD i 1 →
        r.drawdowns.getD i (.num 1) = .num 0) :=
  drawdown_entries_amended [100, 120, 90, 150, 130] (by decide) (by decide)

/-! ## Claims C8 and C10: groundwork -/

theorem JsNum.isFinite_iff (x : JsNum) : x.isFinite ↔ ∃ q, x = .num q := by
  cases x <;> simp [JsNum.isFinite]

theorem exceptBind_ok {ε α β : Type} (a : α) (f : α → Except ε β) :
    (Except.ok a >>= f) = f a := rfl

theorem exceptBind_error {ε α β : Type} (e : ε) (f : α → Except ε β) :
    ((Except.error e : Except ε α) >>= f) = .error e := rfl

theorem sqDiffs_foldl_nonneg (m : ℚ) :
    ∀ (l : List ℚ) (init : ℚ), 0 ≤ init →
      0 ≤ l.foldl (fun sum value => sum + (value - m) * (value - m)) init := by
  intro l
  induction l with
  | nil => intro init h; simpa using h
  | cons v t ih =>
      intro init h
      simpa using ih (init + (v - m) * (v - m)) (add_nonneg h (mul_self_nonneg _))

theorem variance_nonneg (values : List ℚ) (h2 : 2 ≤ values.length) :
    0 ≤ (calculateSampleStatistics values).2 := by
  unfold calculateSampleStatistics
  have hlen : (2 : ℚ) ≤ (values.length : ℚ) := by exact_mod_cast h2
  exact div_nonneg (sqDiffs_foldl_nonneg _ values 0 le_rfl) (by linarith)

theorem corr_foldl (z : List (ℚ × ℚ)) :
    ∀ a : CorrSums,
      (z.foldl corrStep a).sum1 = a.sum1 + (z.map (·.1)).sum ∧
      (z.foldl corrStep a).sum2 = a.sum2 + (z.map (·.2)).sum ∧
      (z.foldl corrStep a).sumProd = a.sumProd + (z.map fun p => p.1 * p.2).sum ∧
      (z.foldl corrStep a).sumSq1 = a.sumSq1 + (z.map fun p => p.1 * p.1).sum ∧
      (z.foldl corrStep a).sumSq2 = a.sumSq2 + (z.map fun p => p.2 * p.2).sum := by
  induction z with
  | nil => intro a; simp
  | cons xy t ih =>
      intro a
      obtain ⟨i1, i2, i3, i4, i5⟩ := ih (corrStep a xy)
      refine ⟨?_, ?_, ?_, ?_, ?_⟩
      · rw [List.foldl_cons, i1]; simp only [corrStep, List.map_cons, List.sum_cons]; ring
      · rw [List.foldl_cons, i2]; simp only [corrStep, List.map_cons, List.sum_cons]; ring
      · rw [List.foldl_cons, i3]; simp only [corrStep, List.map_cons, List.sum_cons]; ring
      · rw [List.foldl_cons, i4]; simp only [corrStep, List.map_cons, List.sum_cons]; ring
      · rw [List.foldl_cons, i5]; simp only [corrStep, List.map_cons, List.sum_cons]; ring

theorem sum_sq_sub (c : ℚ) :
    ∀ l : List ℚ,
      (l.map fun x => (x - c) * (x - c)).sum
        = (l.map fun x => x * x).sum - 2 * c * l.sum + (l.length : ℚ) * c * c := by
  intro l
  induction l with
  | nil => simp
  | cons v t ih =>
      simp only [List.map_cons, List.sum_cons, List.length_cons, ih]
      push_cast
      ring

theorem cs_list (l : List ℚ) :
    0 ≤ (l.length : ℚ) * (l.map fun x => x * x).sum - l.sum * l.sum := by
  rcases Nat.eq_zero_or_pos l.length with h0 | hpos
  · rw [List.length_eq_zero] at h0
    simp [h0]
  · have hn : (0 : ℚ) < (l.length : ℚ) := by exact_mod_cast hpos
    set c : ℚ := l.sum / (l.length : ℚ) with hc
    have hnn : 0 ≤ (l.map fun x => (x - c) * (x - c)).sum :=
      List.sum_nonneg (by
        intro y hy
        rcases List.mem_map.mp hy with ⟨x, _, rfl⟩
        exact mul_self_nonneg _)
    have key : (l.length : ℚ) * (l.map fun x => (x - c) * (x - c)).sum
        = (l.length : ℚ) * (l.map fun x => x * x).sum - l.sum * l.sum := by
      rw [sum_sq_sub c l, hc]
      field_simp
      ring
    calc (0 : ℚ) ≤ (l.length : ℚ) * (l.map fun x => (x - c) * (x - c)).sum :=
          mul_nonneg (le_of_lt hn) hnn
      _ = _ := key

theorem correlation_ok_or_error (S : SqrtFn) (s1 s2 : List ℚ) :
    (∃ e, calculateCorrelation S s1 s2 = .error e) ∨
    (∃ q, calculateCorrelation S s1 s2 = .ok (.num q)) := by
  unfold calculateCorrelation
  by_cases hlen : s1.length ≠ s2.length
  · rw [if_pos hlen]; exact Or.inl ⟨_, rfl⟩
  push_neg at hlen
  rw [if_neg (by simp [hlen])]
  by_cases h2 : s1.length < 2
  · rw [if_pos h2]; exact Or.inl ⟨_, rfl⟩
  rw [if_neg h2]
  obtain ⟨e1, e2, e3, e4, e5⟩ := corr_foldl (s1.zip s2) ⟨0, 0, 0, 0, 0⟩
  have hmapfst : (s1.zip s2).map (·.1) = s1 := List.map_fst_zip s1 s2 (le_of_eq hlen)
  have hmapsnd : (s1.zip s2).map (·.2) = s2 := List.map_snd_zip s1 s2 (ge_of_eq hlen)
  have hsq1 : ((s1.zip s2).map fun p => p.1 * p.1).sum = (s1.map fun x => x * x).sum := by
    rw [show ((s1.zip s2).map fun p => p.1 * p.1)
        = ((s1.zip s2).map (·.1)).map fun x => x * x by rw [List.map_map]; rfl, hmapfst]
  have hsq2 : ((s1.zip s2).map fun p => p.2 * p.2).sum = (s2.map fun x => x * x).sum := by
    rw [show ((s1.zip s2).map fun p => p.2 * p.2)
        = ((s1.zip s2).map (·.2)).map fun x => x * x by rw [List.map_map]; rfl, hmapsnd]
  have hf1 : 0 ≤ (s1.length : ℚ) * ((s1.zip s2).foldl corrStep ⟨0, 0, 0, 0, 0⟩).sumSq1
      - ((s1.zip s2).foldl corrStep ⟨0, 0, 0, 0, 0⟩).sum1
        * ((s1.zip s2).foldl corrStep ⟨0, 0, 0, 0, 0⟩).sum1 := by
    rw [e4, e1, hsq1, hmapfst]
    simpa using cs_list s1
  have hf2 : 0 ≤ (s1.length : ℚ) * ((s1.zip s2).foldl corrStep ⟨0, 0, 0, 0, 0⟩).sumSq2
      - ((s1.zip s2).foldl corrStep ⟨0, 0, 0, 0, 0⟩).sum2
        * ((s1.zip s2).foldl corrStep ⟨0, 0, 0, 0, 0⟩).sum2 := by
    rw [e5, e2, hsq2, hmapsnd, hlen]
    simpa using cs_list s2
  have hprod : 0 ≤ ((s1.length : ℚ) * ((s1.zip s2).foldl corrStep ⟨0, 0, 0, 0, 0⟩).sumSq1
      - ((s1.zip s2).foldl corrStep ⟨0, 0, 0, 0, 0⟩).sum1
        * ((s1.zip s2).foldl corrStep ⟨0, 0, 0, 0, 0⟩).sum1)
      * ((s1.length : ℚ) * ((s1.zip s2).foldl corrStep ⟨0, 0, 0, 0, 0⟩).sumSq2
      - ((s1.zip s2).foldl corrStep ⟨0, 0, 0, 0, 0⟩).sum2
        * ((s1.zip s2).foldl corrStep ⟨0, 0, 0, 0, 0⟩).sum2) :=
    mul_nonneg hf1 hf2
  simp only [jsSqrt]
  rw [if_neg (not_lt.mpr hprod)]
  by_cases hz : S.f (((s1.length : ℚ)
      * ((s1.zip s2).foldl corrStep ⟨0, 0, 0, 0, 0⟩).sumSq1
      - ((s1.zip s2).foldl corrStep ⟨0, 0, 0, 0, 0⟩).sum1
        * ((s1.zip s2).foldl corrStep ⟨0, 0, 0, 0, 0⟩).sum1)
      * ((s1.length : ℚ) * ((s1.zip s2).foldl corrStep ⟨0, 0, 0, 0, 0⟩).sumSq2
      - ((s1.zip s2).foldl corrStep ⟨0, 0, 0, 0, 0⟩).sum2
        * ((s1.zip s2).foldl corrStep ⟨0, 0, 0, 0, 0⟩).sum2)) = 0
  · refine Or.inl ⟨"Variance must be greater than zero to calculate correlation", ?_⟩
    rw [if_pos (by simp [jsIsZero, hz])]
  · rw [if_neg (by simp [jsIsZero, hz])]
    simp only [jsDivNN, if_neg hz]
    exact Or.inr ⟨_, rfl⟩

theorem returnsAux_ok_finite :
    ∀ z : List (ℚ × ℚ),
      (∃ e, returnsAux z = .error e) ∨
      (∃ l, returnsAux z = .ok l ∧ ∀ x ∈ l, x.isFinite) := by
  intro z
  induction z with
  | nil => exact Or.inr ⟨[], rfl, by simp⟩
  | cons pp t ih =>
      obtain ⟨previous, price⟩ := pp
      by_cases hp : previous = 0
      · refine Or.inl ⟨"Previous price cannot be zero when calculating returns", ?_⟩
        simp only [returnsAux, if_pos hp]
      · rcases ih with ⟨e, he⟩ | ⟨l, hl, hfin⟩
        · refine Or.inl ⟨e, ?_⟩
          simp only [returnsAux, if_neg hp, he]
          rfl
        · refine Or.inr ⟨jsDivNN (.num (price - previous)) (.num previous) :: l, ?_, ?_⟩
          · simp only [returnsAux, if_neg hp, hl]
            rfl
          · intro x hx
            rcases List.mem_cons.mp hx with rfl | hx'
            · simp only [jsDivNN, if_neg hp]
              trivial
            · exact hfin x hx'

theorem foldl_jsAdd_finite :
    ∀ (l : List JsNum) (a : JsNum), a.isFinite → (∀ x ∈ l, x.isFinite) →
      (l.foldl jsAdd a).isFinite := by
  intro l
  induction l with
  | nil => intro a ha _; exact ha
  | cons x t ih =>
      intro a ha hl
      have hx := hl x (List.mem_cons_self x t)
      rcases (JsNum.isFinite_iff a).mp ha with ⟨qa, rfl⟩
      rcases (JsNum.isFinite_iff x).mp hx with ⟨qx, rfl⟩
      exact ih (.num (qa + qx)) trivial (fun y hy => hl y (List.mem_cons_of_mem _ hy))

theorem drawdown_fold_maxDD_finite (values : List ℚ) :
    ∀ st : DrawdownState, st.maxDrawdown.isFinite →
      (∀ q ∈ peaksAux st.peak values, q ≠ 0) →
      ((values.foldl drawdownStep st).maxDrawdown).isFinite := by
  induction values with
  | nil => intro st h _; exact h
  | cons v t ih =>
      intro st h hq
      have hp : (if st.peak < v then v else st.peak) ≠ 0 :=
        hq _ (by simp [peaksAux])
      have hdd : (jsDivNN (.num (v - (if st.peak < v then v else st.peak)))
          (.num (if st.peak < v then v else st.peak))).isFinite := by
        simp only [jsDivNN, if_neg hp]
        trivial
      have hsel : ∀ dd : JsNum, dd.isFinite →
          (if jsLt dd st.maxDrawdown = true then dd else st.maxDrawdown).isFinite := by
        intro dd hdd'
        split
        · exact hdd'
        · exact h
      rw [List.foldl_cons]
      refine ih (drawdownStep st v) (hsel _ hdd) ?_
      intro q hmem
      refine hq q ?_
      rw [show peaksAux st.peak (v :: t)
          = (if st.peak < v then v else st.peak)
            :: peaksAux (if st.peak < v then v else st.peak) t from rfl]
      exact List.mem_cons_of_mem _ hmem

theorem getD_row_finite (acc : List (List JsNum))
    (hacc : ∀ row ∈ acc, ∀ x ∈ row, x.isFinite) (j i : ℕ) :
    ((acc.getD j []).getD i (.num 0)).isFinite := by
  by_cases hj : j < acc.length
  · have hrow : acc.getD j [] ∈ acc := by
      rw [getD_eq_get _ _ _ hj]
      exact List.get_mem acc j hj
    by_cases hi : i < (acc.getD j []).length
    · rw [getD_eq_get _ _ _ hi]
      exact hacc _ hrow _ (List.get_mem _ i hi)
    · rw [List.getD_eq_default _ _ (le_of_not_lt hi)]
      trivial
  · rw [List.getD_eq_default _ _ (le_of_not_lt hj)]
    simp [List.getD, JsNum.isFinite]

theorem exceptMapList_ok_finite {f : ℕ → Except String JsNum}
    (hf : ∀ j, (∃ e, f j = .error e) ∨ ∃ q, f j = .ok (.num q)) :
    ∀ l : List ℕ,
      (∃ e, exceptMapList f l = .error e) ∨
      (∃ ys, exceptMapList f l = .ok ys ∧ ∀ x ∈ ys, x.isFinite) := by
  intro l
  induction l with
  | nil => exact Or.inr ⟨[], rfl, by simp⟩
  | cons x t ih =>
      rcases hf x with ⟨e, he⟩ | ⟨q, hq⟩
      · refine Or.inl ⟨e, ?_⟩
        simp only [exceptMapList, he]
        rfl
      · rcases ih with ⟨e, he⟩ | ⟨ys, hys, hfin⟩
        · refine Or.inl ⟨e, ?_⟩
          simp only [exceptMapList, hq, he]
          rfl
        · refine Or.inr ⟨.num q :: ys, ?_, ?_⟩
          · simp only [exceptMapList, hq, hys]
            rfl
          · intro y hy
            rcases List.mem_cons.mp hy with rfl | hy'
            · trivial
            · exact hfin y hy'

theorem buildCorrRows_finite (S : SqrtFn) (series : List (List ℚ)) :
    ∀ n : ℕ,
      (∃ e, buildCorrRows S series n = .error e) ∨
      (∃ M, buildCorrRows S series n = .ok M ∧ ∀ row ∈ M, ∀ x ∈ row, x.isFinite) := by
  intro n
  induction n with
  | zero => exact Or.inr ⟨[], rfl, by simp⟩
  | succ n ih =>
      rcases ih with ⟨e, he⟩ | ⟨acc, hacc, haccfin⟩
      · refine Or.inl ⟨e, ?_⟩
        simp only [buildCorrRows, he, exceptBind_error]
      · have hent : ∀ j, (∃ e, corrEntry S series acc n j = .error e) ∨
            ∃ q, corrEntry S series acc n j = .ok (.num q) := by
          intro j
          unfold corrEntry
          by_cases hij : n = j
          · rw [if_pos hij]; exact Or.inr ⟨1, rfl⟩
          · rw [if_neg hij]
            by_cases hji : j < n
            · rw [if_pos hji]
              refine Or.inr ⟨?_, ?_⟩
              · exact Classical.choose ((JsNum.isFinite_iff _).mp
                  (getD_row_finite acc haccfin j n))
              · rw [← Classical.choose_spec ((JsNum.isFinite_iff _).mp
                  (getD_row_finite acc haccfin j n))]
            · rw [if_neg hji]
              exact correlation_ok_or_error S _ _
        rcases exceptMapList_ok_finite hent (List.range series.length) with
          ⟨e, he⟩ | ⟨row, hrow, hrowfin⟩
        · refine Or.inl ⟨e, ?_⟩
          simp only [buildCorrRows, hacc, exceptBind_ok, he, exceptBind_error]
        · refine Or.inr ⟨acc ++ [row], ?_, ?_⟩
          · simp only [buildCorrRows, hacc, exceptBind_ok, hrow]
          · intro r hr
            rcases List.mem_append.mp hr with hr' | hr'
            · exact haccfin r hr'
            · rw [List.mem_singleton.mp hr']
              exact hrowfin

/-! ## Claim C8 -/

/-- C8 counterexample: the input `[0]` satisfies drawdown's stated
minimum-size precondition (at least one value), yet `calculateDrawdown`
silently succeeds with a `NaN` drawdown series and a `NaN` average
(`0 / 0` at the zero peak) instead of raising a typed error. -/
theorem drawdown_nan_counterexample :
    (calculateDrawdown [0]).toOption.map (fun r => (r.drawdowns, r.averageDrawdown))
      = some ([JsNum.nan], JsNum.nan) ∧
    ¬ JsNum.nan.isFinite :=
  ⟨by decide, by decide⟩

/-- C8 amended: no statistics-engine operation silently returns a
non-finite number - each call either raises (a typed `error`) or returns
finite values - provided (the amendment) that `calculateDrawdown` is only
applied to series whose running peaks are all nonzero; at a zero peak the
drawdown division yields `NaN` silently (see the counterexample). -/
theorem engine_no_nan_amended :
    (∀ prices : List ℚ,
      (∃ e, calculateReturns prices = .error e) ∨
      (∃ l, calculateReturns prices = .ok l ∧ ∀ x ∈ l, x.isFinite)) ∧
    (∀ (S : SqrtFn) (returns : List ℚ) (annualize : Bool),
      (∃ e, calculateVolatility S returns annualize = .error e) ∨
      (∃ x, calculateVolatility S returns annualize = .ok x ∧ x.isFinite)) ∧
    (∀ (S : SqrtFn) (s1 s2 : List ℚ),
      (∃ e, calculateCorrelation S s1 s2 = .error e) ∨
      (∃ x, calculateCorrelation S s1 s2 = .ok x ∧ x.isFinite)) ∧
    (∀ (S : SqrtFn) (series : List (List ℚ)),
      (∃ e, calculateCorrelationMatrix S series = .error e) ∨
      (∃ M, calculateCorrelationMatrix S series = .ok M ∧
        ∀ row ∈ M, ∀ x ∈ row, x.isFinite)) ∧
    (∀ values : List ℚ, (∀ q ∈ peaksList values, q ≠ 0) →
      (∃ e, calculateDrawdown values = .error e) ∨
      (∃ r, calculateDrawdown values = .ok r ∧ (∀ d ∈ r.drawdowns, d.isFinite) ∧
        r.maxDrawdown.isFinite ∧ r.averageDrawdown.isFinite)) ∧
    (∀ (S : SqrtFn) (returns : List ℚ) (riskFreeRate : ℚ),
      (∃ e, calculateSharpeRatio S returns riskFreeRate = .error e) ∨
      (∃ x, calculateSharpeRatio S returns riskFreeRate = .ok x ∧ x.isFinite)) ∧
    (∀ (returns : List ℚ) (confidence : ℚ),
      (∃ e, calculateHistoricalVaR returns confidence = .error e) ∨
      (∃ v, calculateHistoricalVaR returns confidence = .ok v)) := by
  refine ⟨?_, ?_, ?_, ?_, ?_, ?_, ?_⟩
  · -- returns
    intro prices
    by_cases h2 : prices.length < 2
    · refine Or.inl ⟨"At least two price points are required to calculate returns", ?_⟩
      simp only [calculateReturns, if_pos h2]
    · rcases returnsAux_ok_finite (prices.zip prices.tail) with ⟨e, he⟩ | ⟨l, hl, hfin⟩
      · refine Or.inl ⟨e, ?_⟩
        simp only [calculateReturns, if_neg h2, he]
      · refine Or.inr ⟨l, ?_, hfin⟩
        simp only [calculateReturns, if_neg h2, hl]
  · -- volatility
    intro S returns annualize
    by_cases h2 : returns.length < 2
    · refine Or.inl ⟨"At least two return values are required to calculate volatility", ?_⟩
      simp only [calculateVolatility, if_pos h2]
    · have hvar : 0 ≤ (calculateSampleStatistics returns).2 :=
        variance_nonneg returns (not_lt.mp h2)
      cases annualize with
      | false =>
          refine Or.inr ⟨.num (S.f (calculateSampleStatistics returns).2), ?_, trivial⟩
          simp [calculateVolatility, if_neg h2, jsSqrt, not_lt.mpr hvar]
      | true =>
          refine Or.inr ⟨.num (S.f (calculateSampleStatistics returns).2 * S.f 252),
            ?_, trivial⟩
          have h252 : ¬ (252 : ℚ) < 0 := by norm_num
          simp [calculateVolatility, if_neg h2, jsSqrt, not_lt.mpr hvar, h252, jsMul]
  · -- correlation
    intro S s1 s2
    rcases correlation_ok_or_error S s1 s2 with ⟨e, he⟩ | ⟨q, hq⟩
    · exact Or.inl ⟨e, he⟩
    · exact Or.inr ⟨.num q, hq, trivial⟩
  · -- correlation matrix
    intro S series
    by_cases h0 : series.length = 0
    · refine Or.inl ⟨"At least one series is required to calculate correlation matrix", ?_⟩
      simp only [calculateCorrelationMatrix, if_pos h0]
    by_cases hlen2 : (series.headD []).length < 2
    · refine Or.inl
        ⟨"At least two observations are required to calculate correlation matrix", ?_⟩
      simp only [calculateCorrelationMatrix, if_neg h0, if_pos hlen2]
    by_cases hany : (series.any fun s => decide (s.length ≠ (series.headD []).length)) = true
    · refine Or.inl ⟨"All series must have the same length", ?_⟩
      simp only [calculateCorrelationMatrix, if_neg h0, if_neg hlen2, if_pos hany]
    · rcases buildCorrRows_finite S series series.length with ⟨e, he⟩ | ⟨M, hM, hfin⟩
      · refine Or.inl ⟨e, ?_⟩
        simp only [calculateCorrelationMatrix, if_neg h0, if_neg hlen2, if_neg hany, he]
      · refine Or.inr ⟨M, ?_, hfin⟩
        simp only [calculateCorrelationMatrix, if_neg h0, if_neg hlen2, if_neg hany, hM]
  · -- drawdown (amended: nonzero running peaks)
    intro values hq
    match values with
    | [] => exact Or.inl ⟨_, rfl⟩
    | v0 :: t =>
        have hq' : ∀ q ∈ peaksAux v0 (v0 :: t), q ≠ 0 := hq
        have hdds := drawdown_fold_dds (v0 :: t)
          { peak := v0, peakIndex := 0, maxDrawdown := .num 0, maxStart := 0, maxEnd := 0
            drawdowns := [], idx := 0 }
        have hfin : ∀ d ∈ ((v0 :: t).foldl drawdownStep
            { peak := v0, peakIndex := 0, maxDrawdown := .num 0, maxStart := 0, maxEnd := 0
              drawdowns := [], idx := 0 }).drawdowns, d.isFinite := by
          intro d hd
          rw [hdds, List.nil_append] at hd
          rcases List.mem_map.mp hd with ⟨vp, hvp, rfl⟩
          have hp : vp.2 ≠ 0 := hq' vp.2 (List.of_mem_zip hvp).2
          simp only [jsDivNN, if_neg hp]
          trivial
        refine Or.inr ⟨_, rfl, hfin, ?_, ?_⟩
        · exact drawdown_fold_maxDD_finite (v0 :: t) _ trivial hq'
        · have htot := foldl_jsAdd_finite (((v0 :: t).foldl drawdownStep
              { peak := v0, peakIndex := 0, maxDrawdown := .num 0, maxStart := 0, maxEnd := 0
                drawdowns := [], idx := 0 }).drawdowns) (.num 0) trivial hfin
          rcases (JsNum.isFinite_iff _).mp htot with ⟨qt, hqt⟩
          have hlen : (((v0 :: t).foldl drawdownStep
              { peak := v0, peakIndex := 0, maxDrawdown := .num 0, maxStart := 0, maxEnd := 0
                drawdowns := [], idx := 0 }).drawdowns).length = (v0 :: t).length := by
            rw [hdds, List.nil_append, List.length_map, List.length_zip,
              peaksAux_length, min_self]
          have hlenq : ((((v0 :: t).foldl drawdownStep
              { peak := v0, peakIndex := 0, maxDrawdown := .num 0, maxStart := 0, maxEnd := 0
                drawdowns := [], idx := 0 }).drawdowns).length : ℚ) ≠ 0 := by
            rw [hlen]
            simp only [List.length_cons]
            push_cast
            intro hcon
            have hnn : (0 : ℚ) ≤ (t.length : ℚ) := Nat.cast_nonneg t.length
            linarith
          show (jsDivNN _ _).isFinite
          rw [hqt]
          simp only [jsDivNN, if_neg hlenq]
          trivial
  · -- sharpe ratio
    intro S returns riskFreeRate
    by_cases h2 : returns.length < 2
    · refine Or.inl
        ⟨"At least two return values are required to calculate Sharpe ratio", ?_⟩
      simp only [calculateSharpeRatio, if_pos h2]
    · have hlen : (returns.map fun value => value - riskFreeRate).length = returns.length :=
        List.length_map _ _
      have hvar : 0 ≤ (calculateSampleStatistics
          (returns.map fun value => value - riskFreeRate)).2 :=
        variance_nonneg _ (by rw [hlen]; exact not_lt.mp h2)
      by_cases hz : (calculateSampleStatistics
          (returns.map fun value => value - riskFreeRate)).2 = 0
      · refine Or.inl
          ⟨"Return variance must be greater than zero to calculate Sharpe ratio", ?_⟩
        simp only [calculateSharpeRatio, if_neg h2, if_pos hz]
      · have hpos : 0 < S.f (calculateSampleStatistics
            (returns.map fun value => value - riskFreeRate)).2 :=
          S.f_pos _ (lt_of_le_of_ne hvar (Ne.symm hz))
        refine Or.inr ⟨.num ((calculateSampleStatistics
            (returns.map fun value => value - riskFreeRate)).1
          / S.f (calculateSampleStatistics
            (returns.map fun value => value - riskFreeRate)).2), ?_, trivial⟩
        simp only [calculateSharpeRatio, if_neg h2, if_neg hz, jsSqrt,
          if_neg (not_lt.mpr hvar), jsDivNN, if_neg (ne_of_gt hpos)]
  · -- historical VaR
    intro returns confidence
    by_cases h0 : returns.length = 0
    · refine Or.inl ⟨"At least one return value is required to calculate VaR", ?_⟩
      simp only [calculateHistoricalVaR, if_pos h0]
    by_cases hc : confidence ≤ 0 ∨ 1 ≤ confidence
    · refine Or.inl ⟨"confidence must be between 0 and 1", ?_⟩
      simp only [calculateHistoricalVaR, if_neg h0, if_pos hc]
    · refine Or.inr ⟨(returns.insertionSort (· ≤ ·)).getD
        (max 0 (⌈(1 - confidence)
          * ((returns.insertionSort (· ≤ ·)).length : ℚ)⌉ - 1)).toNat 0, ?_⟩
      simp only [calculateHistoricalVaR, if_neg h0, if_neg hc]

/-- Witness for C8: the drawdown clause applied to the positive series
`[100, 120, 90]` (running peaks `[100, 120, 120]`, all nonzero), and the
returns clause at `[100, 110]`. -/
theorem engine_no_nan_amended_witness :
    ((∃ e, calculateDrawdown [100, 120, 90] = .error e) ∨
      (∃ r, calculateDrawdown [100, 120, 90] = .ok r ∧
        (∀ d ∈ r.drawdowns, d.isFinite) ∧
        r.maxDrawdown.isFinite ∧ r.averageDrawdown.isFinite)) ∧
    ((∃ e, calculateReturns [100, 110] = .error e) ∨
      (∃ l, calculateReturns [100, 110] = .ok l ∧ ∀ x ∈ l, x.isFinite)) :=
  ⟨engine_no_nan_amended.2.2.2.2.1 [100, 120, 90] (by decide),
    engine_no_nan_amended.1 [100, 110]⟩

/-! ## Claim C10 -/

theorem exceptMapList_ok_getD {f : ℕ → Except String JsNum} :
    ∀ (l : List ℕ) (ys : List JsNum), exceptMapList f l = .ok ys →
      ys.length = l.length ∧
      ∀ k, ∀ hk : k < l.length, f (l.getD k 0) = .ok (ys.getD k (.num 0)) := by
  intro l
  induction l with
  | nil =>
      intro ys h
      cases h
      exact ⟨rfl, fun k hk => absurd hk (by simp)⟩
  | cons x t ih =>
      intro ys h
      simp only [exceptMapList] at h
      cases hx : f x with
      | error e => rw [hx] at h; cases h
      | ok y =>
          rw [hx] at h
          cases ht : exceptMapList f t with
          | error e => rw [ht] at h; cases h
          | ok ts =>
              rw [ht] at h
              cases h
              obtain ⟨ihlen, ihget⟩ := ih ts ht
              refine ⟨by simp [ihlen], ?_⟩
              intro k hk
              cases k with
              | zero => simpa using hx
              | succ j => exact ihget j (Nat.lt_of_succ_lt_succ hk)

theorem buildCorrRows_diag (S : SqrtFn) (series : List (List ℚ)) :
    ∀ (n : ℕ) (M : List (List JsNum)), n ≤ series.length →
      buildCorrRows S series n = .ok M →
      M.length = n ∧ ∀ k, ∀ hk : k < n, (M.getD k []).getD k (.num 0) = .num 1 := by
  intro n
  induction n with
  | zero =>
      intro M _ h
      cases h
      exact ⟨rfl, fun k hk => absurd hk (by simp)⟩
  | succ n ih =>
      intro M hle h
      simp only [buildCorrRows] at h
      cases hacc : buildCorrRows S series n with
      | error e => rw [hacc] at h; cases h
      | ok acc =>
          rw [hacc] at h
          simp only [exceptBind_ok] at h
          cases hrow : exceptMapList (corrEntry S series acc n) (List.range series.length) with
          | error e => rw [hrow] at h; cases h
          | ok row =>
              rw [hrow] at h
              simp only [exceptBind_ok] at h
              cases h
              obtain ⟨ihlen, ihdiag⟩ := ih acc (Nat.le_of_succ_le hle) hacc
              obtain ⟨rowlen, rowget⟩ := exceptMapList_ok_getD (List.range series.length)
                row hrow
              have hn : n < series.length := hle
              have hdiag_n : (row.getD n (.num 0)) = .num 1 := by
                have := rowget n (by simpa using hn)
                rw [getD_eq_get _ _ n (by simpa using hn)] at this
                simp only [List.get_range] at this
                rw [show corrEntry S series acc n n = .ok (.num 1) from by
                  simp [corrEntry]] at this
                exact (Except.ok.inj this).symm
              refine ⟨by simp [ihlen], ?_⟩
              intro k hk
              rcases Nat.lt_succ_iff_lt_or_eq.mp hk with hk' | rfl
              · rw [List.getD_append acc [row] [] k (by rw [ihlen]; exact hk')]
                exact ihdiag k hk'
              · rw [List.getD_append_right acc [row] [] k (le_of_eq ihlen),
                  ihlen, Nat.sub_self]
                exact hdiag_n

/-- C10: the correlation matrix sets each diagonal entry to exactly `1`
without computing a correlation, so the zero-variance check can never be
triggered by a series' correlation with itself: every successful
`calculateCorrelationMatrix` result has `1` at every diagonal position,
and for the single constant series `[[5, 5]]` the matrix succeeds with
`[[1]]` even though `calculateCorrelation` of that series with itself
raises the zero-variance error (for every square-root model `S`). -/
theorem correlationMatrix_diagonal_spec :
    (∀ (S : SqrtFn) (series : List (List ℚ)) (M : List (List JsNum)),
      calculateCorrelationMatrix S series = .ok M →
      M.length = series.length ∧
      ∀ k, ∀ hk : k < series.length, (M.getD k []).getD k (.num 0) = .num 1) ∧
    (∀ S : SqrtFn, calculateCorrelationMatrix S [[5, 5]] = .ok [[.num 1]] ∧
      ∃ e, calculateCorrelation S [5, 5] [5, 5] = .error e) := by
  constructor
  · intro S series M h
    by_cases h0 : series.length = 0
    · rw [calculateCorrelationMatrix, if_pos h0] at h
      cases h
    by_cases hlen2 : (series.headD []).length < 2
    · rw [calculateCorrelationMatrix, if_neg h0] at h
      simp only [if_pos hlen2] at h
      cases h
    by_cases hany : (series.any fun s => decide (s.length ≠ (series.headD []).length)) = true
    · rw [calculateCorrelationMatrix, if_neg h0] at h
      simp only [if_neg hlen2, if_pos hany] at h
      cases h
    · rw [calculateCorrelationMatrix, if_neg h0] at h
      simp only [if_neg hlen2, if_neg hany] at h
      exact buildCorrRows_diag S series series.length M le_rfl h
  · intro S
    constructor
    · show calculateCorrelationMatrix S [[5, 5]] = .ok [[.num 1]]
      rw [calculateCorrelationMatrix, if_neg (by decide)]
      simp only [if_neg (by decide : ¬ (([[(5 : ℚ), 5]].headD []).length < 2)),
        if_neg (by decide : ¬ (([[(5 : ℚ), 5]].any fun s =>
          decide (s.length ≠ ([[(5 : ℚ), 5]].headD []).length)) = true))]
      show buildCorrRows S [[5, 5]] 1 = .ok [[.num 1]]
      simp only [buildCorrRows, exceptBind_ok]
      rw [show List.range ([[(5 : ℚ), 5]].length) = [0] from rfl]
      simp only [exceptMapList, corrEntry, if_pos rfl, exceptBind_ok]
      rfl
    · refine ⟨"Variance must be greater than zero to calculate correlation", ?_⟩
      rw [calculateCorrelation, if_neg (by decide), if_neg (by decide)]
      have hfold : ([(5 : ℚ), 5].zip [(5 : ℚ), 5]).foldl corrStep ⟨0, 0, 0, 0, 0⟩
          = ⟨10, 10, 50, 50, 50⟩ := by decide
      simp only [hfold]
      norm_num [jsSqrt, jsIsZero, S.f_zero]

/-- Witness for C10: the concrete clause at `idSqrt`, plus the general
diagonal clause applied to the resulting matrix `[[1]]` at index 0. -/
theorem correlationMatrix_diagonal_spec_witness :
    calculateCorrelationMatrix idSqrt [[5, 5]] = .ok [[.num 1]] ∧
    (∃ e, calculateCorrelation idSqrt [5, 5] [5, 5] = .error e) ∧
    ([[JsNum.num 1]].getD 0 []).getD 0 (.num 0) = .num 1 := by
  have hb := correlationMatrix_diagonal_spec.2 idSqrt
  exact ⟨hb.1, hb.2,
    (correlationMatrix_diagonal_spec.1 idSqrt [[5, 5]] [[.num 1]] hb.1).2 0 (by decide)⟩

/-! ## Claim C9 -/

/-- C9: for a nonempty returns list and a confidence strictly inside
`(0, 1)`, `calculateHistoricalVaR` returns the element at index
`max 0 (ceil((1 - confidence) * n) - 1)` of the ascending-sorted returns
(the sort really is an ascending-sorted permutation of the input); an
empty list or an out-of-range confidence raises; and on
`[-0.02, 0.01, -0.03, 0.015, -0.01]` with confidence `0.95` the result is
`-0.03`. -/
theorem historicalVaR_spec :
    (∀ (returns : List ℚ) (confidence : ℚ),
      returns ≠ [] → 0 < confidence → confidence < 1 →
      (returns.insertionSort (· ≤ ·)).Sorted (· ≤ ·) ∧
      (returns.insertionSort (· ≤ ·)).Perm returns ∧
      ∃ hlt : (max 0 (⌈(1 - confidence) * (returns.length : ℚ)⌉ - 1)).toNat
          < (returns.insertionSort (· ≤ ·)).length,
        calculateHistoricalVaR returns confidence
          = .ok ((returns.insertionSort (· ≤ ·)).get
              ⟨(max 0 (⌈(1 - confidence) * (returns.length : ℚ)⌉ - 1)).toNat, hlt⟩)) ∧
    (∀ (returns : List ℚ) (confidence : ℚ),
      returns = [] ∨ confidence ≤ 0 ∨ 1 ≤ confidence →
      ∃ e, calculateHistoricalVaR returns confidence = .error e) ∧
    calculateHistoricalVaR [-2/100, 1/100, -3/100, 15/1000, -1/100] (95/100)
      = .ok (-3/100) := by
  refine ⟨?_, ?_, by decide⟩
  · intro returns confidence hne hpos hlt1
    have hsorted := List.sorted_insertionSort (α := ℚ) (· ≤ ·) returns
    have hperm := List.perm_insertionSort (α := ℚ) (· ≤ ·) returns
    have hlen : (returns.insertionSort (· ≤ ·)).length = returns.length :=
      hperm.length_eq
    have hn : 0 < returns.length := List.length_pos.mpr hne
    have hceil : ⌈(1 - confidence) * (returns.length : ℚ)⌉ ≤ (returns.length : ℤ) := by
      rw [Int.ceil_le]
      push_cast
      exact mul_le_of_le_one_left (by positivity) (by linarith)
    have hidx : (max 0 (⌈(1 - confidence) * (returns.length : ℚ)⌉ - 1)).toNat
        < (returns.insertionSort (· ≤ ·)).length := by
      rw [hlen]
      omega
    refine ⟨hsorted, hperm, hidx, ?_⟩
    unfold calculateHistoricalVaR
    rw [if_neg (by omega), if_neg (by push_neg; exact ⟨hpos, hlt1⟩)]
    simp only [hlen]
    rw [getD_eq_get _ _ _ hidx]
  · intro returns confidence h
    unfold calculateHistoricalVaR
    rcases h with rfl | h
    · exact ⟨_, rfl⟩
    · by_cases hlen : returns.length = 0
      · rw [if_pos hlen]; exact ⟨_, rfl⟩
      · rw [if_neg hlen, if_pos h]; exact ⟨_, rfl⟩

/-- Witness for C9: the index formula applied to the worked example from
the spec (`n = 5`, confidence `0.95`, index `0` of the sorted returns). -/
theorem historicalVaR_spec_witness :
    ([(-2 : ℚ)/100, 1/100, -3/100, 15/1000, -1/100] ≠ ([] : List ℚ)) ∧
    (0 : ℚ) < 95/100 ∧ (95 : ℚ)/100 < 1 ∧
    ∃ hlt : (max 0 (⌈(1 - 95/100) * (([(-2 : ℚ)/100, 1/100, -3/100, 15/1000,
        -1/100].length : ℚ))⌉ - 1)).toNat
        < ([(-2 : ℚ)/100, 1/100, -3/100, 15/1000, -1/100].insertionSort (· ≤ ·)).length,
      calculateHistoricalVaR [(-2 : ℚ)/100, 1/100, -3/100, 15/1000, -1/100] (95/100)
        = .ok (([(-2 : ℚ)/100, 1/100, -3/100, 15/1000, -1/100].insertionSort (· ≤ ·)).get
            ⟨(max 0 (⌈(1 - 95/100) * (([(-2 : ℚ)/100, 1/100, -3/100, 15/1000,
                -1/100].length : ℚ))⌉ - 1)).toNat, hlt⟩) :=
  ⟨by decide, by decide, by decide,
    ((historicalVaR_spec.1 [(-2 : ℚ)/100, 1/100, -3/100, 15/1000, -1/100] (95/100)
      (by decide) (by decide) (by decide)).2.2)⟩

end AssetManager
